import Mathlib

/-!
# Formula Guru — Formula Validation & Enforcement Pipeline, shallow embedding

This file embeds the deterministic core of the Formula Guru server
(`src/unnamed/part_005` of the hairhub-server repository): the brand rule
registry, the formula normalizer `enforceRatioAndDeveloper`, the shade
validator (`extractCodes`, `matchesPattern`, `validateOut`), the
ratio/developer acceptance gate `stepHasRatioAndDeveloper`, the suitability
guards (`enforceNeutralBlack`, `expressTonesGuard`), the scenario collapse,
and the two-attempt generation orchestrator `generatePlan`.

Strings are modelled as `List Char`.  JavaScript regular expressions are
modelled either by hand-written scanners (for the simple anchored or search
patterns) or by a small backtracking matcher over a regex AST (for the
alternation/boundary patterns and for the dynamically constructed ratio
pattern, whose `escape`-then-insert-`\s*` construction is reproduced
verbatim, including its behaviour on ratios containing a dot).
-/

namespace FormulaGuru

/-- The model's string type: a JavaScript string as a list of characters. -/
abbrev Str := List Char

/-- View a Lean string literal as a model string. -/
def sl (s : String) : Str := s.toList

/-- JavaScript `\s` (WhiteSpace and LineTerminator), also the set trimmed
by `String.prototype.trim`. -/
def wsB (c : Char) : Bool :=
  c = ' ' || c = '\t' || c = '\n' || c = '\r' || c = '\x0b' || c = '\x0c' ||
  c.val = 0xa0 || c.val = 0x1680 || (0x2000 ≤ c.val && c.val ≤ 0x200a) ||
  c.val = 0x2028 || c.val = 0x2029 || c.val = 0x202f || c.val = 0x205f ||
  c.val = 0x3000 || c.val = 0xfeff

/-- JavaScript `\w`: ASCII letters, digits and underscore. -/
def wordB (c : Char) : Bool :=
  ('a' ≤ c && c ≤ 'z') || ('A' ≤ c && c ≤ 'Z') || ('0' ≤ c && c ≤ '9') || c = '_'

/-- ASCII digit. -/
def digitB (c : Char) : Bool := '0' ≤ c && c ≤ '9'

/-- ASCII uppercase letter. -/
def upperB (c : Char) : Bool := 'A' ≤ c && c ≤ 'Z'

/-- ASCII letter. -/
def alphaB (c : Char) : Bool := ('a' ≤ c && c ≤ 'z') || ('A' ≤ c && c ≤ 'Z')

/-- JS `String.prototype.toLowerCase`, restricted to the ASCII case mapping
(the only one exercised by the embedded strings). -/
def lower (s : Str) : Str := s.map Char.toLower

/-- Left trim of JavaScript whitespace. -/
def trimL (s : Str) : Str := s.dropWhile wsB

/-- Right trim of JavaScript whitespace. -/
def trimR (s : Str) : Str := (s.reverse.dropWhile wsB).reverse

/-- JS `String.prototype.trim`. -/
def trim (s : Str) : Str := trimR (trimL s)

/-- JS `String.prototype.includes pat` (case-sensitive substring test). -/
def containsSub (s pat : Str) : Bool := s.tails.any (fun t => pat.isPrefixOf t)

/-- Case-insensitive substring test: the semantics of
`new RegExp(escapeRegex pat, 'i').test s`. -/
def containsCI (s pat : Str) : Bool := containsSub (lower s) (lower pat)

/-- Word-character test for an optional character; `none` (string edge)
counts as a non-word position, as for the JavaScript `\b` assertion. -/
def wordOpt : Option Char → Bool
  | none => false
  | some c => wordB c

/-- Does `/\bwith\b/i` match at the start of `l`, with `prev` the character
just before this position? -/
def withAt (prev : Option Char) (l : Str) : Bool :=
  match l with
  | c1 :: c2 :: c3 :: c4 :: rest =>
    c1.toLower = 'w' && c2.toLower = 'i' && c3.toLower = 't' && c4.toLower = 'h' &&
    !wordOpt prev && !wordOpt rest.head?
  | _ => false

/-- Scan for the leftmost `/\bwith\b/i` match; `acc` is the reversed prefix
already passed, `prev` its head. -/
def findWithGo (prev : Option Char) (acc : Str) : Str → Option (Str × Str × Str)
  | [] => none
  | l@(c :: t) =>
    if withAt prev l then some (acc.reverse, l.take 4, l.drop 4)
    else findWithGo (some c) (c :: acc) t

/-- The leftmost match of `/\bwith\b/i` in `s`, as the decomposition
(before, matched four characters, after). -/
def findWith (s : Str) : Option (Str × Str × Str) := findWithGo none [] s

/-- JS `/\bwith\b/i.test s`. -/
def hasWithTok (s : Str) : Bool := (findWith s).isSome

/-- Skip an optional JavaScript fraction `(?:\.\d+)?` (greedy): consume
`'.'` followed by at least one digit, else leave the input unchanged. -/
def fracSkip (l : Str) : Str :=
  match l with
  | '.' :: t => if (t.takeWhile digitB).isEmpty then l else t.dropWhile digitB
  | _ => l

/-- Does `/(\d+(?:\.\d+)?)\s*:\s*(\d+(?:\.\d+)?)/` match at the start of
`l`?  (The trailing fraction is irrelevant for a match test.) -/
def ratioAt (l : Str) : Bool :=
  if (l.takeWhile digitB).isEmpty then false
  else
    match (fracSkip (l.dropWhile digitB)).dropWhile wsB with
    | ':' :: r => !((r.dropWhile wsB).takeWhile digitB).isEmpty
    | _ => false

/-- JS `/(\d+(?:\.\d+)?)\s*:\s*(\d+(?:\.\d+)?)/.test s` — the generic
"some ratio token present" search used by the normalizer. -/
def ratioSearch (s : Str) : Bool := s.tails.any ratioAt

/-- JS `/^(\d+(?:\.\d+)?)\s*:\s*(\d+(?:\.\d+)?)$/.test r` — the normalizer's
"simple fixed ratio" test. -/
def isSimpleRatio (l : Str) : Bool :=
  if (l.takeWhile digitB).isEmpty then false
  else
    match (fracSkip (l.dropWhile digitB)).dropWhile wsB with
    | ':' :: r =>
      let r2 := r.dropWhile wsB
      if (r2.takeWhile digitB).isEmpty then false
      else (fracSkip (r2.dropWhile digitB)).isEmpty
    | _ => false

/-- Does `/\d\s*:\s*\d/` match at the start of `l`? -/
def dcdAt (l : Str) : Bool :=
  match l with
  | c :: t =>
    digitB c &&
    (match t.dropWhile wsB with
     | ':' :: r => (r.dropWhile wsB).head?.elim false digitB
     | _ => false)
  | [] => false

/-- JS `/\d\s*:\s*\d/.test s` (the RTU branch's ratio-token search). -/
def dcdSearch (s : Str) : Bool := s.tails.any dcdAt

/-- JS `/^\s*n\/a/i.test f` — does the formula begin with "N/A"? -/
def naStart (f : Str) : Bool :=
  match f.dropWhile wsB with
  | c1 :: c2 :: c3 :: _ => c1.toLower = 'n' && c2 = '/' && c3.toLower = 'a'
  | _ => false

/-- The generic code fallback of `validateOut`:
`/^[A-Za-z0-9.]+$/.test t && !/[\/\-]/.test t` on the trimmed code. -/
def genericOK (code : Str) : Bool :=
  let t := trim code
  !t.isEmpty && t.all (fun c => alphaB c || digitB c || c = '.') &&
    !(t.any (fun c => c = '/' || c = '-'))

/-- JS `s.replace(/\b1A\b/g, '1N')`; `prevW` records whether the character
just before the current position is a word character. -/
def replace1AGoF : Nat → Bool → Str → Str
  | 0, _, l => l
  | _ + 1, _, [] => []
  | f + 1, prevW, c :: rest =>
    if c = '1' then
      match rest with
      | 'A' :: rest2 =>
        if !prevW && !(rest2.head?.elim false wordB) then
          '1' :: 'N' :: replace1AGoF f true rest2
        else '1' :: replace1AGoF f true rest
      | _ => c :: replace1AGoF f (wordB c) rest
    else c :: replace1AGoF f (wordB c) rest

/-- JS `s.replace(/\b1A\b/g, '1N')`. -/
def replaceAll1A (s : Str) : Str := replace1AGoF (s.length + 1) false s

/-- Fuelled body of `s.replace(/\([^)]*\)/g, '')`. -/
def removeParensF : Nat → Str → Str
  | 0, l => l
  | _ + 1, [] => []
  | f + 1, '(' :: rest =>
    match rest.dropWhile (fun c => c ≠ ')') with
    | ')' :: after => removeParensF f after
    | _ => '(' :: removeParensF f rest
  | f + 1, c :: rest => c :: removeParensF f rest

/-- JS `s.replace(/\([^)]*\)/g, '')` — strip parenthesised groups. -/
def removeParens (s : Str) : Str := removeParensF s.length s

/-- JS `s.split('+')`. -/
def splitPlus : Str → List Str
  | [] => [[]]
  | '+' :: rest => [] :: splitPlus rest
  | c :: rest =>
    match splitPlus rest with
    | [] => [[c]]
    | p :: ps => (c :: p) :: ps

/-- Fuelled body of `s.replace(/\d+%/g, '')`. -/
def pctStripF : Nat → Str → Str
  | 0, l => l
  | _ + 1, [] => []
  | f + 1, c :: rest =>
    if digitB c then
      match (c :: rest).dropWhile digitB with
      | '%' :: after => pctStripF f after
      | _ => c :: pctStripF f rest
    else c :: pctStripF f rest

/-- JS `s.replace(/\d+%/g, '')`. -/
def pctStrip (s : Str) : Str := pctStripF s.length s

/-- Fuelled body of `s.replace(/\s{2,}/g, ' ')`. -/
def wsCollapseF : Nat → Str → Str
  | 0, l => l
  | _ + 1, [] => []
  | f + 1, c :: rest =>
    if wsB c then
      match rest with
      | d :: _ => if wsB d then ' ' :: wsCollapseF f (rest.dropWhile wsB) else c :: wsCollapseF f rest
      | [] => [c]
    else c :: wsCollapseF f rest

/-- JS `s.replace(/\s{2,}/g, ' ')`. -/
def wsCollapse (s : Str) : Str := wsCollapseF s.length s

/-- Does the developer-splitting regex
`/\s*\/\s*|\s+or\s+|\s+OR\s+/` match at the start of `l`? -/
def devSplitAt (l : Str) : Bool :=
  (match l.dropWhile wsB with
   | '/' :: _ => true
   | _ => false) ||
  (match l with
   | c :: rest =>
     wsB c &&
     (match rest.dropWhile wsB with
      | 'o' :: 'r' :: r2 => r2.head?.elim false wsB
      | 'O' :: 'R' :: r2 => r2.head?.elim false wsB
      | _ => false)
   | [] => false)

/-- JS `s.split(/\s*\/\s*|\s+or\s+|\s+OR\s+/)[0]` — the prefix before the
leftmost match of the splitting regex. -/
def devSplitFirst : Str → Str
  | [] => []
  | l@(c :: rest) => if devSplitAt l then [] else c :: devSplitFirst rest

/-! ## A small backtracking regex matcher

The matcher `M` returns, in JavaScript backtracking order (greedy
quantifiers, left alternative first), every way a pattern can match a
prefix of the input, as pairs of the last consumed character (needed for
the `\b` assertion) and the remaining suffix.  Star recursion is fuelled;
every starred sub-pattern in this file consumes at least one character per
iteration, so the fuel `length + 1` used by the entry points is never
exhausted. -/

/-- Regex AST (the fragment used by the embedded patterns). -/
inductive RE where
  | eps
  | cls (p : Char → Bool)
  | seq (a b : RE)
  | alt (a b : RE)
  | opt (a : RE)
  | star (a : RE)
  | rep (a : RE) (m n : Nat)
  | wb

/-- All prefix matches of a pattern, in backtracking order.  The fuel
bounds the call depth; it is decremented on every recursive call, so the
recursion is structural and the function reduces inside the kernel.  The
entry points pass `reFuel`, which over-approximates the deepest possible
call chain (every star iteration consumes at least one character, since
every starred sub-pattern of this file consumes input). -/
def M : Nat → RE → Option Char → Str → List (Option Char × Str)
  | 0, _, _, _ => []
  | f + 1, re, prev, l =>
    match re with
    | .eps => [(prev, l)]
    | .cls p =>
      match l with
      | [] => []
      | c :: t => if p c then [(some c, t)] else []
    | .seq a b => (M f a prev l).flatMap (fun pr => M f b pr.1 pr.2)
    | .alt a b => M f a prev l ++ M f b prev l
    | .opt a => M f a prev l ++ [(prev, l)]
    | .star a =>
      ((M f a prev l).flatMap (fun pr =>
        if pr.2.length < l.length then M f (.star a) pr.1 pr.2 else [])) ++ [(prev, l)]
    | .rep a m n =>
      match n with
      | 0 => if m = 0 then [(prev, l)] else []
      | n' + 1 =>
        match m with
        | 0 => (M f a prev l).flatMap (fun pr => M f (.rep a 0 n') pr.1 pr.2) ++ [(prev, l)]
        | m' + 1 => (M f a prev l).flatMap (fun pr => M f (.rep a m' n') pr.1 pr.2)
    | .wb => if wordOpt prev != wordOpt l.head? then [(prev, l)] else []

/-- A size measure on patterns dominating the call depth of one match
attempt (iterations excluded). -/
def reSize : RE → Nat
  | .eps => 1
  | .cls _ => 1
  | .wb => 1
  | .seq a b => reSize a + reSize b + 1
  | .alt a b => reSize a + reSize b + 1
  | .opt a => reSize a + 1
  | .star a => reSize a + 1
  | .rep a _ n => reSize a + n + 1

/-- Ample fuel for matching `r` against (a suffix of) `s`. -/
def reFuel (r : RE) (s : Str) : Nat := (reSize r + 2) * (s.length + 2)

/-- Anchored match test (`^`-anchored regexes of the brand pattern table). -/
def reTest (r : RE) (s : Str) : Bool := !(M (reFuel r s) r none s).isEmpty

/-- Unanchored search from a given left context. -/
def reSearchGo (r : RE) (prev : Option Char) : Str → Bool
  | [] => !(M (reFuel r []) r prev []).isEmpty
  | l@(c :: t) =>
    if !(M (reFuel r l) r prev l).isEmpty then true
    else reSearchGo r (some c) t

/-- Unanchored search (`regex.test s` for a pattern without an anchor). -/
def reSearch (r : RE) (s : Str) : Bool := reSearchGo r none s

/-- Length of the first (backtracking-preferred) match at this position,
with the last consumed character. -/
def reFirstLen (r : RE) (prev : Option Char) (l : Str) : Option (Nat × Option Char) :=
  match M (reFuel r l) r prev l with
  | [] => none
  | (p, rest) :: _ => some (l.length - rest.length, p)

/-- Fuelled body of a global replace by a constant replacement string. -/
def reReplGo : Nat → RE → Str → Option Char → Str → Str
  | 0, _, _, _, l => l
  | f + 1, r, rep, prev, l =>
    match reFirstLen r prev l with
    | some (len, p) =>
      if len = 0 then
        match l with
        | [] => rep
        | c :: t => rep ++ c :: reReplGo f r rep (some c) t
      else rep ++ reReplGo f r rep p (l.drop len)
    | none =>
      match l with
      | [] => []
      | c :: t => c :: reReplGo f r rep (some c) t

/-- JS `s.replace(regex-with-g-flag, rep)` for a constant replacement. -/
def reReplaceAll (r : RE) (rep : Str) (s : Str) : Str := reReplGo (s.length + 1) r rep none s

/-- Single literal character. -/
def chC (c : Char) : RE := .cls (fun x => x = c)

/-- Single literal character under the `i` flag. -/
def chI (c : Char) : RE := .cls (fun x => x.toLower = c.toLower)

/-- The `\s` class. -/
def wsC : RE := .cls wsB

/-- The `\d` class. -/
def digC : RE := .cls digitB

/-- JavaScript `.` (any character except line terminators). -/
def dotC : RE := .cls (fun c => !(c = '\n' || c = '\r' || c.val = 0x2028 || c.val = 0x2029))

/-- A literal string, case-sensitively. -/
def reStr (s : String) : RE := s.toList.foldr (fun c acc => .seq (chC c) acc) .eps

/-- A literal string under the `i` flag. -/
def reStrI (s : String) : RE := s.toList.foldr (fun c acc => .seq (chI c) acc) .eps

/-- Left-nested alternation of a non-empty list (left alternative first). -/
def reAlts (l : List RE) : RE :=
  match l with
  | [] => .eps
  | [r] => r
  | r :: rest => .alt r (reAlts rest)

/-! ## Brand rule registry (the static `BRAND_RULES` table) -/

/-- One entry of `BRAND_RULES`. -/
structure BrandRule where
  category : Str
  ratio : Str
  developer : Str
deriving DecidableEq

/-- The `BRAND_RULES` table (category, mixing ratio, developer; the
free-text `notes` field is never consulted by the pipeline and is
omitted). -/
def BRAND_RULES (brand : Str) : Option BrandRule :=
  if brand = sl "Redken Color Gels Lacquers" then
    some ⟨sl "permanent", sl "1:1", sl "Redken Pro‑oxide Cream Developer 10/20/30/40 vol"⟩
  else if brand = sl "Wella Koleston Perfect" then
    some ⟨sl "permanent", sl "1:1", sl "Welloxon Perfect 3%/6%/9%/12%"⟩
  else if brand = sl "Wella Illumina Color" then
    some ⟨sl "permanent", sl "1:1", sl "Welloxon Perfect 3%/6%/9%"⟩
  else if brand = sl "L’Oréal Professionnel Majirel" then
    some ⟨sl "permanent", sl "1:1.5", sl "L’Oréal Oxydant Creme"⟩
  else if brand = sl "Matrix SoColor Permanent" then
    some ⟨sl "permanent", sl "1:1", sl "Matrix Cream Developer 10/20/30/40 vol"⟩
  else if brand = sl "Goldwell Topchic" then
    some ⟨sl "permanent", sl "1:1", sl "Goldwell Topchic Developer Lotion 6%/9%/12%"⟩
  else if brand = sl "Schwarzkopf Igora Royal" then
    some ⟨sl "permanent", sl "1:1", sl "IGORA Oil Developer 3%/6%/9%/12%"⟩
  else if brand = sl "Pravana ChromaSilk Permanent Crème Color" then
    some ⟨sl "permanent", sl "1:1.5", sl "PRAVANA Crème Developer 10/20/30/40 vol"⟩
  else if brand = sl "Redken Shades EQ" then
    some ⟨sl "demi", sl "1:1", sl "Shades EQ Processing Solution"⟩
  else if brand = sl "Wella Color Touch" then
    some ⟨sl "demi", sl "1:2", sl "Color Touch Emulsion 1.9% or 4%"⟩
  else if brand = sl "Paul Mitchell The Demi" then
    some ⟨sl "demi", sl "1:1", sl "The Demi Processing Liquid"⟩
  else if brand = sl "Matrix SoColor Sync" then
    some ⟨sl "demi", sl "1:1", sl "SoColor Sync Activator"⟩
  else if brand = sl "Goldwell Colorance" then
    some ⟨sl "demi", sl "2:1", sl "Colorance System Developer Lotion 2% (7 vol)"⟩
  else if brand = sl "Schwarzkopf Igora Vibrance" then
    some ⟨sl "demi", sl "1:1", sl "IGORA VIBRANCE Activator Gel/Lotion 1.9%/4%"⟩
  else if brand = sl "Pravana ChromaSilk Express Tones" then
    some ⟨sl "demi", sl "1:1.5", sl "PRAVANA Zero Lift Creme Developer"⟩
  else if brand = sl "Wella Color Fresh" then
    some ⟨sl "semi", sl "RTU", sl "None"⟩
  else if brand = sl "Goldwell Elumen" then
    some ⟨sl "semi", sl "RTU", sl "None"⟩
  else if brand = sl "Pravana ChromaSilk Vivids" then
    some ⟨sl "semi", sl "RTU", sl "None"⟩
  else if brand = sl "Schwarzkopf Chroma ID" then
    some ⟨sl "semi", sl "RTU", sl "None"⟩
  else if brand = sl "Matrix SoColor Cult" then
    some ⟨sl "semi", sl "RTU", sl "None"⟩
  else none

/-! ## Shade-code pattern table (`BRAND_PATTERNS`) -/

/-- JS `\d{1,2}`. -/
def d12 : RE := .rep digC 1 2

/-- JS `[A-Z]{1,3}`. -/
def uc13 : RE := .rep (.cls upperB) 1 3

/-- JS `^\s*` prelude common to every brand pattern. -/
def wsPre : RE := .star wsC

/-- JS `BRAND_PATTERNS`: per brand, the list of accepted shade-code regexes. -/
def BRAND_PATTERNS (brand : Str) : List RE :=
  if brand = sl "Redken Shades EQ" then
    [.seq wsPre (.seq (.opt (chC '0')) (.seq d12 (.seq uc13 .wb)))]
  else if brand = sl "Wella Color Touch" then
    [.seq wsPre (.seq (.cls (fun c => '1' ≤ c && c ≤ '9')) (.seq (chC '/') (.seq d12 .wb)))]
  else if brand = sl "Paul Mitchell The Demi" then
    [.seq wsPre (.seq (.opt (chC '0')) (.seq d12 (.seq uc13 .wb)))]
  else if brand = sl "Matrix SoColor Sync" then
    [.seq wsPre (.seq (.opt (chC '0')) (.seq d12 (.seq uc13 .wb)))]
  else if brand = sl "Goldwell Colorance" then
    [.seq wsPre (.seq d12 (.seq (.rep (.cls (fun c => upperB c || c = '@')) 1 3) .wb))]
  else if brand = sl "Schwarzkopf Igora Vibrance" then
    [.seq wsPre (.seq d12 (.seq (chC '-') (.seq d12 .wb))),
     .seq wsPre (.seq (.opt (chC '0')) (.seq d12 (.seq uc13 .wb)))]
  else if brand = sl "Pravana ChromaSilk Express Tones" then
    [.seq wsPre (.seq (reAlts [reStrI "Platinum", reStrI "Violet", reStrI "Ash",
      reStrI "Beige", reStrI "Gold", reStrI "Copper", reStrI "Rose", reStrI "Silver",
      reStrI "Natural", reStrI "Clear"]) .wb)]
  else if brand = sl "Redken Color Gels Lacquers" then
    [.seq wsPre (.seq d12 (.seq uc13 .wb))]
  else if brand = sl "Wella Koleston Perfect" then
    [.seq wsPre (.seq d12 (.seq (chC '/') (.seq d12 .wb)))]
  else if brand = sl "Wella Illumina Color" then
    [.seq wsPre (.seq d12 (.seq (chC '/') (.seq d12 .wb)))]
  else if brand = sl "L’Oréal Professionnel Majirel" then
    [.seq wsPre (.seq (.seq digC (.star digC))
      (.seq (.seq (.seq (chC '.') (.seq digC (.star digC)))
        (.star (.seq (chC '.') (.seq digC (.star digC))))) .wb))]
  else if brand = sl "Matrix SoColor Permanent" then
    [.seq wsPre (.seq d12 (.seq uc13 .wb))]
  else if brand = sl "Goldwell Topchic" then
    [.seq wsPre (.seq d12 (.seq uc13 .wb))]
  else if brand = sl "Schwarzkopf Igora Royal" then
    [.seq wsPre (.seq d12 (.seq (chC '-') (.seq d12 .wb)))]
  else if brand = sl "Pravana ChromaSilk Permanent Crème Color" then
    [.seq wsPre (.seq (.alt
      (.seq d12 (.seq (chC '.') (.seq (.cls (fun c => digitB c || upperB c))
        (.star (.cls (fun c => digitB c || upperB c))))))
      (.seq d12 uc13)) .wb)]
  else if brand = sl "Wella Color Fresh" then
    [.seq wsPre (.seq (.alt (.seq d12 (.seq (chC '/') d12)) d12) .wb)]
  else if brand = sl "Goldwell Elumen" then
    [.seq wsPre (.seq (.opt (chC '@')) (.seq (.rep (.cls upperB) 1 2)
      (.seq (.star (.cls (fun c => upperB c || digitB c))) .wb)))]
  else if brand = sl "Pravana ChromaSilk Vivids" then
    [.seq wsPre (.seq (.cls alphaB) (.seq (.star (.cls (fun c => alphaB c || c = ' '))) .wb))]
  else if brand = sl "Schwarzkopf Chroma ID" then
    [.seq wsPre (.seq (reAlts [.seq d12 (.seq (chC '-') d12),
      reStrI "Clear", reStrI "Bonding", reStrI "Pastel"]) .wb)]
  else if brand = sl "Matrix SoColor Cult" then
    [.seq wsPre (.seq (.cls alphaB) (.seq (.star (.cls (fun c => alphaB c || c = ' '))) .wb))]
  else []

/-- JS `matchesPattern(code, brand)`. -/
def matchesPattern (code brand : Str) : Bool :=
  (BRAND_PATTERNS brand).any (fun r => reTest r code)

/-! ## `canonicalDeveloperName` -/

/-- JS `/\b(10|20|30|40)\s*vol(?:ume)?\b/ig`. -/
def volRe : RE :=
  .seq .wb (.seq (reAlts [reStr "10", reStr "20", reStr "30", reStr "40"])
    (.seq (.star wsC) (.seq (reStrI "vol") (.seq (.opt (reStrI "ume")) .wb))))

/-- JS `canonicalDeveloperName(brand)`: first developer alternative, stripped
of percentages, volume annotations and parentheticals, whitespace
collapsed and trimmed. -/
def canonicalDeveloperName (brand : Str) : Option Str :=
  match BRAND_RULES brand with
  | none => none
  | some rule =>
    if rule.developer.isEmpty || rule.developer = sl "None" then none
    else
      let first := devSplitFirst rule.developer
      let first := pctStrip first
      let first := reReplaceAll volRe [] first
      let first := removeParens first
      let first := wsCollapse first
      let first := trim first
      if first.isEmpty then none else some first

/-! ## The dynamically built ratio-presence pattern

`stepHasRatioAndDeveloper` builds its ratio pattern by escaping every
regex metacharacter of the brand ratio (prefixing it with a backslash) and
then applying a global replace of the whitespace-star pattern by a
backslash-s-star source text, before compiling with the `i` flag.  The
second replace inserts its replacement between every pair of characters of
the escaped source — including between the backslash and the dot of an
escaped dot — so the construction is reproduced literally here and the
resulting source is then parsed into the AST. -/

/-- The escaped metacharacter class: dash, slash, backslash, caret,
dollar, star, plus, question mark, dot, parens, pipe, square brackets and
curly braces. -/
def reSpecial (c : Char) : Bool :=
  c = '-' || c = '/' || c = '\\' || c = '^' || c = '$' || c = '*' || c = '+' ||
  c = '?' || c = '.' || c = '(' || c = ')' || c = '|' || c = '[' || c = ']' ||
  c = '{' || c = '}'

/-- The metacharacter-escaping replace: each special character is prefixed
with a backslash. -/
def escapeRe (l : Str) : Str :=
  l.flatMap (fun c => if reSpecial c then ['\\', c] else [c])

/-- Fuelled body of `r.replace(/\s*/g, '\\s*')` (an empty match inserts
`\s*` and the engine then advances one character; a non-empty match
replaces the whole whitespace run). -/
def insertWsStarF : Nat → Str → Str
  | 0, l => l
  | _ + 1, [] => ['\\', 's', '*']
  | f + 1, l@(c :: rest) =>
    if wsB c then '\\' :: 's' :: '*' :: insertWsStarF f (l.dropWhile wsB)
    else '\\' :: 's' :: '*' :: c :: insertWsStarF f rest

/-- JS `r.replace(/\s*/g, '\\s*')`. -/
def insertWsStar (l : Str) : Str := insertWsStarF (l.length + 1) l

/-- One atom of the constructed pattern source (the constructed sources
only contain literals, `\s`, escaped literals and `.`). -/
def parseAtom : Str → RE × Str
  | '\\' :: 's' :: r => (wsC, r)
  | '\\' :: c :: r => (chI c, r)
  | '\\' :: [] => (.eps, [])
  | '.' :: r => (dotC, r)
  | c :: r => (chI c, r)
  | [] => (.eps, [])

/-- Fuelled parser for the constructed pattern source (`i` flag). -/
def parsePatF : Nat → Str → RE
  | 0, _ => .eps
  | _ + 1, [] => .eps
  | f + 1, l =>
    match parseAtom l with
    | (atom, '*' :: rest) => .seq (.star atom) (parsePatF f rest)
    | (atom, rest) => .seq atom (parsePatF f rest)

/-- The compiled ratio-presence pattern for a brand ratio `r`. -/
def ratioPattern (r : Str) : RE :=
  let src := insertWsStar (escapeRe r)
  parsePatF (src.length + 1) src

/-- JS `new RegExp(escaped-and-ws-padded r, 'i').test f` — the gate's test
that the ratio `r` is present in the formula `f`. -/
def ratioInjTest (r f : Str) : Bool := reSearch (ratioPattern r) f

/-! ## Data model -/

/-- A formula step (`{formula, timing, note}`); every field may be null. -/
structure Step where
  formula : Option Str
  timing : Option Str
  note : Option Str
deriving DecidableEq

/-- One scenario of the response schema. -/
structure Scenario where
  title : Option Str
  condition : Option Str
  target_level : Option Int
  roots : Option Step
  melt : Option Step
  ends : Option Step
  processing : List Str
  confidence : ℚ
deriving DecidableEq

/-- The response object `{analysis, scenarios}`; `scenarios` is `none` when
the collaborator's JSON did not carry an array (the code guards every
access with `Array.isArray`). -/
structure AnalysisResult where
  analysis : Str
  scenarios : Option (List Scenario)
deriving DecidableEq

/-- The result of `validateOut` (`reason` is empty when valid). -/
structure ValidationOutcome where
  valid : Bool
  reason : Str
deriving DecidableEq

/-! ## Formula normalizer (`enforceRatioAndDeveloper`) -/

/-- Developer injection step of the normalizer: if the canonical developer
name is not already present (case-insensitively), insert it after an
existing word "with", or append " with name". -/
def devStep (devName : Option Str) (out : Str) : Str :=
  match devName with
  | none => out
  | some d =>
    if containsCI out d then out
    else
      match findWith out with
      | some (a, _, b) => a ++ sl "with " ++ d ++ b
      | none => out ++ sl " with " ++ d

/-- Ratio injection step of the normalizer: for a simple fixed ratio, if no
ratio token is present, insert "(r)" before an existing word "with", or
append " (r)". -/
def ratioStep (r : Str) (out : Str) : Str :=
  if isSimpleRatio r then
    if ratioSearch out then out
    else
      match findWith out with
      | some (a, _, b) => a ++ (sl "(" ++ r ++ sl ") with") ++ b
      | none => out ++ (sl " (" ++ r ++ sl ")")
  else out

/-- `enforceRatioAndDeveloper(formula, brand)`. -/
def enforceRatioAndDeveloper (formula brand : Str) : Str :=
  if formula.isEmpty then formula
  else
    match BRAND_RULES brand with
    | none => formula
    | some rule =>
      let out := trim formula
      if containsCI rule.ratio (sl "rtu") then out
      else trim (ratioStep (trim rule.ratio) (devStep (canonicalDeveloperName brand) out))

/-! ## Shade validator -/

/-- `extractCodes(formula)`: strip parenthesised groups, truncate at the
first word "with", split on plus signs and take each segment's leading
whitespace-delimited token. -/
def extractCodes (f : Str) : List Str :=
  if f.isEmpty then []
  else
    let cleaned := removeParens f
    let cleaned :=
      match findWith cleaned with
      | some (a, _, _) => a
      | none => cleaned
    (splitPlus cleaned).foldr
      (fun part acc =>
        let token := (trim part).takeWhile (fun c => !wsB c)
        if token.isEmpty then acc else token :: acc) []

/-- `stepHasRatioAndDeveloper(step, brand)` — the ratio/developer
acceptance gate. -/
def stepHasRatioAndDeveloper (step : Option Step) (brand : Str) : Bool :=
  match step with
  | none => true
  | some st =>
    match st.formula with
    | none => true
    | some formula =>
      if formula.isEmpty then true
      else if naStart formula then true
      else
        match BRAND_RULES brand with
        | none => true
        | some rule =>
          if containsCI rule.ratio (sl "rtu") then
            if dcdSearch formula then false
            else if hasWithTok formula then false
            else true
          else
            let ratioList :=
              if brand = sl "Goldwell Colorance" then [sl "2:1", sl "1:1"]
              else [trim rule.ratio]
            if ratioList.any (fun r => ratioInjTest r formula) then
              match canonicalDeveloperName brand with
              | none => true
              | some d => containsCI formula d
            else false

/-- The per-step check of `validateOut`: `none` when the step passes,
otherwise the failure reason. -/
def checkStep (brand : Str) (step : Option Step) : Option Str :=
  match step with
  | none => none
  | some st =>
    match st.formula with
    | none => none
    | some f =>
      if f.isEmpty then none
      else if naStart f then none
      else if !((extractCodes f).all (fun code => matchesPattern code brand || genericOK code)) then
        some (sl "Unrecognized shade format for " ++ brand)
      else if !stepHasRatioAndDeveloper (some st) brand then
        some (sl "Missing or incorrect ratio/developer for " ++ brand)
      else none

/-- The per-scenario check of `validateOut` (roots, then melt, then ends). -/
def checkScenario (brand : Str) (sc : Scenario) : Option Str :=
  (checkStep brand sc.roots).orElse fun _ =>
    (checkStep brand sc.melt).orElse fun _ => checkStep brand sc.ends

/-- `validateOut(out, brand)`. -/
def validateOut (out : AnalysisResult) (brand : Str) : ValidationOutcome :=
  match out.scenarios with
  | none => ⟨true, []⟩
  | some scs =>
    match scs.findSome? (checkScenario brand) with
    | some reason => ⟨false, reason⟩
    | none => ⟨true, []⟩

/-! ## Suitability guards -/

/-- `N_SERIES_BLACK_BRANDS`. -/
def N_SERIES_BLACK_BRANDS : List Str :=
  [sl "Redken Shades EQ", sl "Paul Mitchell The Demi",
   sl "Matrix SoColor Sync", sl "Goldwell Colorance"]

/-- The cue regex of `isLevel12Black`:
`\b(level\s*1(\s*[-–]\s*2)?|level\s*2|jet\s*black|solid\s*black)\b`. -/
def level12Re : RE :=
  .seq .wb (.seq (reAlts
    [.seq (reStr "level") (.seq (.star wsC) (.seq (chC '1')
       (.opt (.seq (.star wsC) (.seq (.cls (fun c => c = '-' || c = '–'))
         (.seq (.star wsC) (chC '2'))))))),
     .seq (reStr "level") (.seq (.star wsC) (chC '2')),
     .seq (reStr "jet") (.seq (.star wsC) (reStr "black")),
     .seq (reStr "solid") (.seq (.star wsC) (reStr "black"))]) .wb)

/-- `isLevel12Black(analysis)`. -/
def isLevel12Black (analysis : Str) : Bool := reSearch level12Re (lower analysis)

/-- `replace1Awith1N(step)`. -/
def replace1Awith1N (step : Option Step) : Option Step :=
  match step with
  | none => none
  | some st =>
    match st.formula with
    | none => some st
    | some f =>
      if f.isEmpty then some st
      else some { st with formula := some (replaceAll1A f) }

/-- `enforceNeutralBlack(out, analysis, brand)`. -/
def enforceNeutralBlack (out : AnalysisResult) (analysis brand : Str) : AnalysisResult :=
  match out.scenarios with
  | none => out
  | some scs =>
    if !(N_SERIES_BLACK_BRANDS.contains brand) then out
    else if !isLevel12Black analysis then out
    else
      { out with scenarios := some (scs.map (fun sc =>
          { sc with roots := replace1Awith1N sc.roots,
                    melt := replace1Awith1N sc.melt,
                    ends := replace1Awith1N sc.ends })) }

/-- The jet-black cue of `expressTonesGuard`:
`\b(level\s*1|level\s*2|jet\s*black|solid\s*black)\b`. -/
def jetBlackRe : RE :=
  .seq .wb (.seq (reAlts
    [.seq (reStr "level") (.seq (.star wsC) (chC '1')),
     .seq (reStr "level") (.seq (.star wsC) (chC '2')),
     .seq (reStr "jet") (.seq (.star wsC) (reStr "black")),
     .seq (reStr "solid") (.seq (.star wsC) (reStr "black"))]) .wb)

/-- The first vivid-red cue: `\b(vivid|vibrant|rich)\s+red\b`. -/
def vividRedRe : RE :=
  .seq .wb (.seq (reAlts [reStr "vivid", reStr "vibrant", reStr "rich"])
    (.seq (.seq wsC (.star wsC)) (.seq (reStr "red") .wb)))

/-- The second vivid-red cue: `\b(cherry|ruby|crimson|scarlet)\b`. -/
def cherryRe : RE :=
  .seq .wb (.seq (reAlts [reStr "cherry", reStr "ruby", reStr "crimson", reStr "scarlet"]) .wb)

/-- `expressTonesGuard(out, analysis, brand)`. -/
def expressTonesGuard (out : AnalysisResult) (analysis brand : Str) : AnalysisResult :=
  if brand ≠ sl "Pravana ChromaSilk Express Tones" then out
  else
    match out.scenarios with
    | none => out
    | some scs =>
      let a := lower analysis
      if reSearch jetBlackRe a then
        { analysis := sl "Express Tones not suitable for level 1–2 black hair.",
          scenarios := some [{
            title := some (sl "Primary plan"), condition := none, target_level := none,
            roots := none, melt := none,
            ends := some ⟨some (sl "N/A — Express Tones require pre‑lightened level 8–10; consider PRAVANA VIVIDS or permanent colour."), some [], none⟩,
            processing := [sl "Not applicable for this photo."],
            confidence := 4/5 }] }
      else if reSearch vividRedRe a || reSearch cherryRe a then
        { analysis := sl "Express Tones are toners and do not provide vivid saturation.",
          scenarios := some [{
            title := some (sl "Primary plan"), condition := none, target_level := none,
            roots := none, melt := none,
            ends := some ⟨some (sl "N/A — For saturated red, use PRAVANA VIVIDS Red/Copper; a 5‑min Rose toner may gloss pre‑lightened hair."), some [], none⟩,
            processing := [sl "Use a direct dye for vivid red; optional toner gloss afterwards."],
            confidence := 4/5 }] }
      else
        { out with scenarios := some (scs.map (fun sc =>
            { sc with ends :=
                match sc.ends with
                | some e => some { e with timing := some (sl "Process 5 minutes only; watch visually.") }
                | none => none })) }

/-! ## Orchestrator (`generatePlan`) -/

/-- The normalization pass of `generatePlan`: patch every step's formula
through `enforceRatioAndDeveloper`. -/
def patchStep (brand : Str) (step : Option Step) : Option Step :=
  match step with
  | none => none
  | some st =>
    match st.formula with
    | none => some st
    | some f =>
      if f.isEmpty then some st
      else some { st with formula := some (enforceRatioAndDeveloper f brand) }

/-- Normalize all scenarios of a response. -/
def normalizeScenarios (brand : Str) (out : AnalysisResult) : AnalysisResult :=
  match out.scenarios with
  | none => out
  | some scs =>
    { out with scenarios := some (scs.map (fun sc =>
        { sc with roots := patchStep brand sc.roots,
                  melt := patchStep brand sc.melt,
                  ends := patchStep brand sc.ends })) }

/-- One attempt's post-processing: normalization, then the neutral-black
guard, then the Express Tones guard (each fed the current
`out.analysis`). -/
def pipelineStage (brand : Str) (o : AnalysisResult) : AnalysisResult :=
  let o1 := normalizeScenarios brand o
  let o2 := enforceNeutralBlack o1 o1.analysis brand
  expressTonesGuard o2 o2.analysis brand

/-- Title test of the demi/semi collapse:
`(s.title || '').toLowerCase().includes('primary')`. -/
def titleHasPrimary (sc : Scenario) : Bool :=
  containsSub (lower (sc.title.getD [])) (sl "primary")

/-- The demi/semi scenario collapse of `generatePlan` (permanent passes
through). -/
def collapseScenarios (category : Str) (out : AnalysisResult) : AnalysisResult :=
  if category = sl "permanent" then out
  else
    match out.scenarios with
    | none => out
    | some scs =>
      match scs.find? titleHasPrimary with
      | some p => { out with scenarios := some [p] }
      | none =>
        match scs with
        | [] => { out with scenarios := some [] }
        | first :: _ => { out with scenarios := some [first] }

/-- The safe fallback of `generatePlan`. -/
def fallbackResult (brand reason : Str) : AnalysisResult :=
  let message := if reason.isEmpty then sl "Unrecognized shade(s) for " ++ brand else reason
  { analysis := message,
    scenarios := some [{
      title := some (sl "Primary plan"), condition := none, target_level := none,
      roots := none, melt := none,
      ends := some ⟨some (sl "N/A — " ++ message ++ sl "."), some [], none⟩,
      processing := [message],
      confidence := 0 }] }

/-- `generatePlan`, with the external collaborator abstracted as the
per-attempt parsed response `collab` and the number of collaborator
invocations returned alongside the result. -/
def generatePlanC (collab : Nat → AnalysisResult) (category brand : Str) :
    AnalysisResult × Nat :=
  let o0 := pipelineStage brand (collab 0)
  let v0 := validateOut o0 brand
  if v0.valid then (collapseScenarios category o0, 1)
  else
    let o1 := pipelineStage brand (collab 1)
    let v1 := validateOut o1 brand
    if v1.valid then (collapseScenarios category o1, 2)
    else (fallbackResult brand v1.reason, 2)

/-- The `/selftest` route's `buildOut(formula)` helper (default empty
analysis): a single Primary scenario whose `ends` carries the formula. -/
def buildOut (formula : Str) : AnalysisResult :=
  { analysis := [],
    scenarios := some [{
      title := some (sl "Primary plan"), condition := none, target_level := none,
      roots := none, melt := none,
      ends := some ⟨some formula, some [], none⟩,
      processing := [],
      confidence := 1/2 }] }

/-! ## The parse step of `callOpenAI`

`JSON.parse` is a platform builtin; it is modelled by the recognizer
`jsonOk` implementing the JSON grammar (RFC 8259: values, objects, arrays,
strings with escapes, numbers, the four JSON whitespace characters).  The
fallback extraction regex of `callOpenAI` — from the first opening brace
to a final closing brace — is `braceMatch`.  When the extracted candidate
fails to parse, `JSON.parse(m[0])` throws inside the `catch` block and the
exception escapes `callOpenAI`; this outcome is `ParseOutcome.err`. -/

/-- JSON whitespace. -/
def wsJ (c : Char) : Bool := c = ' ' || c = '\t' || c = '\n' || c = '\r'

/-- Hexadecimal digit. -/
def hexB (c : Char) : Bool :=
  digitB c || ('a' ≤ c && c ≤ 'f') || ('A' ≤ c && c ≤ 'F')

/-- JSON string body after the opening quote; returns the rest after the
closing quote. -/
def jStr : Str → Option Str
  | [] => none
  | '"' :: r => some r
  | '\\' :: e :: r =>
    if e = '"' || e = '\\' || e = '/' || e = 'b' || e = 'f' || e = 'n' || e = 'r' || e = 't' then
      jStr r
    else if e = 'u' then
      match r with
      | h1 :: h2 :: h3 :: h4 :: r2 =>
        if hexB h1 && hexB h2 && hexB h3 && hexB h4 then jStr r2 else none
      | _ => none
    else none
  | c :: r => if 0x20 ≤ c.val then jStr r else none

/-- JSON fraction part (optional). -/
def jFrac : Str → Option Str
  | '.' :: r =>
    if (r.takeWhile digitB).isEmpty then none else some (r.dropWhile digitB)
  | l => some l

/-- JSON exponent part (optional). -/
def jExp : Str → Option Str
  | c :: r =>
    if c = 'e' || c = 'E' then
      let r2 :=
        match r with
        | s :: r' => if s = '+' || s = '-' then r' else s :: r'
        | [] => []
      if (r2.takeWhile digitB).isEmpty then none else some (r2.dropWhile digitB)
    else some (c :: r)
  | [] => some []

/-- JSON number. -/
def jNum (l : Str) : Option Str :=
  let l1 := match l with | '-' :: r => r | _ => l
  match l1 with
  | '0' :: r => (jFrac r).bind jExp
  | c :: r =>
    if digitB c then (jFrac (r.dropWhile digitB)).bind jExp else none
  | [] => none

mutual

/-- JSON value (fuelled); returns the unconsumed rest. -/
def jVal : Nat → Str → Option Str
  | 0, _ => none
  | f + 1, l =>
    let l1 := l.dropWhile wsJ
    match l1 with
    | 'n' :: 'u' :: 'l' :: 'l' :: r => some r
    | 't' :: 'r' :: 'u' :: 'e' :: r => some r
    | 'f' :: 'a' :: 'l' :: 's' :: 'e' :: r => some r
    | '"' :: r => jStr r
    | '{' :: r => jObj f (r.dropWhile wsJ)
    | '[' :: r => jArr f (r.dropWhile wsJ)
    | _ => jNum l1

/-- JSON object after the opening brace and whitespace. -/
def jObj : Nat → Str → Option Str
  | 0, _ => none
  | f + 1, l =>
    match l with
    | '}' :: r => some r
    | '"' :: r =>
      (jStr r).bind fun r2 =>
        match r2.dropWhile wsJ with
        | ':' :: r3 => (jVal f r3).bind fun r4 => jObjTail f r4
        | _ => none
    | _ => none

/-- JSON object member list continuation. -/
def jObjTail : Nat → Str → Option Str
  | 0, _ => none
  | f + 1, l =>
    match l.dropWhile wsJ with
    | ',' :: r =>
      match r.dropWhile wsJ with
      | '"' :: r2 =>
        (jStr r2).bind fun r3 =>
          match r3.dropWhile wsJ with
          | ':' :: r4 => (jVal f r4).bind fun r5 => jObjTail f r5
          | _ => none
      | _ => none
    | '}' :: r => some r
    | _ => none

/-- JSON array after the opening bracket and whitespace. -/
def jArr : Nat → Str → Option Str
  | 0, _ => none
  | f + 1, l =>
    match l with
    | ']' :: r => some r
    | _ => (jVal f l).bind fun r => jArrTail f r

/-- JSON array element list continuation. -/
def jArrTail : Nat → Str → Option Str
  | 0, _ => none
  | f + 1, l =>
    match l.dropWhile wsJ with
    | ',' :: r => (jVal f r).bind fun r2 => jArrTail f r2
    | ']' :: r => some r
    | _ => none

end

/-- Does `JSON.parse t` succeed?  (Model of the builtin parser.) -/
def jsonOk (t : Str) : Bool :=
  match jVal (2 * t.length + 16) t with
  | some rest => (rest.dropWhile wsJ).isEmpty
  | none => false

/-- The suffix of `t` starting at its first opening brace. -/
def firstBraceSuffix : Str → Option Str
  | [] => none
  | l@('{' :: _) => some l
  | _ :: rest => firstBraceSuffix rest

/-- The fallback extraction of `callOpenAI`: the match of the
first-brace-to-final-brace regex, i.e. the suffix from the first opening
brace when the text ends with a closing brace. -/
def braceMatch (t : Str) : Option Str :=
  if t.getLast? = some '}' then firstBraceSuffix t else none

/-- Outcome of the parse step of `callOpenAI`: a successfully parsed text,
the fixed `Parse error` stub, or an exception escaping the step. -/
inductive ParseOutcome where
  | parsed (body : Str)
  | stub
  | err
deriving DecidableEq

/-- The parse step of `callOpenAI`: try `JSON.parse` on the text; on
failure try the brace extraction; a missing extraction yields the stub,
a non-parsing extraction re-throws. -/
def parseStep (t : Str) : ParseOutcome :=
  if jsonOk t then .parsed t
  else
    match braceMatch t with
    | some c => if jsonOk c then .parsed c else .err
    | none => .stub

/-- The `Parse error` stub value returned when no brace candidate exists:
`{ analysis: 'Parse error', scenarios: [] }`. -/
def stubResult : AnalysisResult := ⟨sl "Parse error", some []⟩

/-! ## Specification-side predicates used by the normalizer theorems -/

/-- A case-insensitive occurrence of `d` in `s`, kept as an occurrence in
the raw string: some substring of `s` lowercases to `lower d`. -/
def RawOcc (s d : Str) : Prop :=
  ∃ u d' v, s = u ++ d' ++ v ∧ lower d' = lower d

/-- The side conditions on a canonical developer name `d` under which a
case-insensitive occurrence of `d` survives the normalizer's
"(ratio) with"-splicing (no confusable overlap with a `\bwith\b` token)
and its trimming (non-whitespace edges).  They are decidable and hold for
every developer name of the registry. -/
def DevSideOK (d : Str) : Prop :=
  4 < (lower d).length ∧
  ¬(sl "with" <:+: lower d) ∧
  (∀ k, k ∈ ([1, 2, 3] : List Nat) → ¬((sl "with").take k <:+ lower d)) ∧
  (∀ k, k ∈ ([1, 2, 3] : List Nat) → ((sl "with").drop k <+: lower d) →
    wordB ((lower d).getD (4 - k) ' ') = true) ∧
  wsB ((lower d).headD ' ') = false ∧
  wsB ((lower d).getLastD ' ') = false

/-- The shape of a region matched by the generic ratio-token regex: some
digits, an optional fraction, optional whitespace, a colon, optional
whitespace, some digits. -/
def RatioShape (m : Str) : Prop :=
  ∃ a fa w₁ w₂ b2,
    m = a ++ fa ++ w₁ ++ [':'] ++ w₂ ++ b2 ∧
    a ≠ [] ∧ (∀ c ∈ a, digitB c = true) ∧
    (fa = [] ∨ ∃ ds, ds ≠ [] ∧ (∀ c ∈ ds, digitB c = true) ∧ fa = '.' :: ds) ∧
    (∀ c ∈ w₁, wsB c = true) ∧ (∀ c ∈ w₂, wsB c = true) ∧
    b2 ≠ [] ∧ (∀ c ∈ b2, digitB c = true)

/-! ## Theorems -/

set_option maxRecDepth 400000

/-- C3 (code bug): for Pravana ChromaSilk Express Tones the pattern table
accepts only the ten shade names (so `matchesPattern` rejects "09NB" and
accepts "Rose"), but `validateOut` deviates from this and from the repo's
own `/selftest` assertions: the selftest's valid-name formula
"Rose (1:1.5) with PRAVANA Zero Lift Creme Developer" is REJECTED — the
whitespace-padding replace corrupts the escaped dot of the ratio "1:1.5",
so the constructed ratio regex demands a literal backslash — and a formula
whose leading code is the numeric "09NB" is ACCEPTED when it carries the
backslash the corrupted pattern wants, because the generic alphanumeric
fallback waves the code through. -/
theorem c3_expressTones_selftest_contradiction :
    matchesPattern (sl "09NB") (sl "Pravana ChromaSilk Express Tones") = false ∧
    matchesPattern (sl "Rose") (sl "Pravana ChromaSilk Express Tones") = true ∧
    validateOut (buildOut (sl "Rose (1:1.5) with PRAVANA Zero Lift Creme Developer"))
        (sl "Pravana ChromaSilk Express Tones")
      = ⟨false, sl "Missing or incorrect ratio/developer for Pravana ChromaSilk Express Tones"⟩ ∧
    validateOut (buildOut (sl "09NB (1:1\\.5) with PRAVANA Zero Lift Creme Developer"))
        (sl "Pravana ChromaSilk Express Tones")
      = ⟨true, []⟩ := by
  decide

/-- C10 (code bug): the acceptance gate accepts both "2:1" and "1:1" for
Goldwell Colorance; for another non-RTU brand a foreign ratio is rejected
(Shades EQ with "2:1"), but for a brand whose registered ratio contains a
dot (L’Oréal Majirel, "1:1.5") even a formula carrying exactly the
registered ratio and developer is rejected, because the constructed ratio
regex is corrupted by the whitespace-padding replace. -/
theorem c10_colorance_two_ratios :
    stepHasRatioAndDeveloper
        (some ⟨some (sl "7GB (2:1) with Colorance System Developer Lotion"), none, none⟩)
        (sl "Goldwell Colorance") = true ∧
    stepHasRatioAndDeveloper
        (some ⟨some (sl "7GB (1:1) with Colorance System Developer Lotion"), none, none⟩)
        (sl "Goldwell Colorance") = true ∧
    stepHasRatioAndDeveloper
        (some ⟨some (sl "07NB (2:1) with Shades EQ Processing Solution"), none, none⟩)
        (sl "Redken Shades EQ") = false ∧
    stepHasRatioAndDeveloper
        (some ⟨some (sl "7.34 (1:1.5) with L’Oréal Oxydant Creme"), none, none⟩)
        (sl "L’Oréal Professionnel Majirel") = false := by
  decide

/-- C6 (counterexample): a formula beginning with "N/A" is not left
unchanged by the normalizer (the input is already trimmed, so the
difference is not the stated trim): the ratio and developer are injected
into it. -/
theorem c6_na_formula_changed :
    trim (sl "N/A — none") = sl "N/A — none" ∧
    enforceRatioAndDeveloper (sl "N/A — none") (sl "Redken Shades EQ")
      = sl "N/A — none (1:1) with Shades EQ Processing Solution" ∧
    enforceRatioAndDeveloper (sl "N/A — none") (sl "Redken Shades EQ") ≠ sl "N/A — none" := by
  decide

/-- C6 (amended): the normalizer is a no-op on empty input for every
brand; formulas beginning with "N/A" are not exempted and receive the same
ratio/developer injection as any other formula. -/
theorem c6_noop_only_on_empty :
    (∀ b : Str, enforceRatioAndDeveloper [] b = []) ∧
    enforceRatioAndDeveloper (sl "N/A — x") (sl "Wella Koleston Perfect")
      = sl "N/A — x (1:1) with Welloxon Perfect" :=
  ⟨fun _ => rfl, by decide⟩

/-- C7 (counterexample): for the RTU brand Wella Color Fresh, a step
formula that contains both an "n:m" ratio token and the word "with" still
passes the acceptance gate when it begins with "N/A", because the gate
exits early on "N/A" formulas. -/
theorem c7_na_rtu_formula_passes_gate :
    (BRAND_RULES (sl "Wella Color Fresh")).map BrandRule.ratio = some (sl "RTU") ∧
    dcdSearch (sl "N/A (1:1) with x") = true ∧
    hasWithTok (sl "N/A (1:1) with x") = true ∧
    stepHasRatioAndDeveloper (some ⟨some (sl "N/A (1:1) with x"), none, none⟩)
      (sl "Wella Color Fresh") = true := by
  decide

/-- C4 (counterexample): for the non-RTU brand Redken Shades EQ (canonical
ratio "1:1") and the formula "07NB (2:1)" — which does not start with
"N/A" — the normalizer appends the developer but keeps the foreign "2:1"
ratio, so its output does not contain the canonical ratio substring. -/
theorem c4_foreign_ratio_kept :
    (BRAND_RULES (sl "Redken Shades EQ")).map BrandRule.ratio = some (sl "1:1") ∧
    naStart (sl "07NB (2:1)") = false ∧
    enforceRatioAndDeveloper (sl "07NB (2:1)") (sl "Redken Shades EQ")
      = sl "07NB (2:1) with Shades EQ Processing Solution" ∧
    containsSub (enforceRatioAndDeveloper (sl "07NB (2:1)") (sl "Redken Shades EQ"))
      (sl "1:1") = false := by
  decide

/-- C8 (counterexample): on the accepted path a demi-category run whose
collaborator returns an empty scenario array completes with ZERO
scenarios, not exactly one — the empty list validates, and the collapse of
an empty list is empty. -/
theorem c8_empty_scenarios_counterexample :
    generatePlanC (fun _ => ⟨[], some []⟩) (sl "demi") (sl "Redken Shades EQ")
      = (⟨[], some []⟩, 1) := by
  decide

/-- C2 (counterexample): when the collaborator text is not parseable JSON
but the brace extraction finds a candidate that is itself not parseable,
the second `JSON.parse` runs inside the `catch` block and its exception
escapes the parse step: the claim that no exception can propagate from
parsing is false. -/
theorem c2_brace_candidate_rethrows :
    jsonOk (sl "{oops}") = false ∧
    braceMatch (sl "{oops}") = some (sl "{oops}") ∧
    parseStep (sl "{oops}") = ParseOutcome.err := by
  decide

/-- C1: whenever both attempts' post-processed collaborator responses fail
validation, the orchestrator invokes the collaborator exactly twice and
returns the fixed fallback: `analysis` is the last validation failure
reason (or, were that reason empty, the generic unrecognized-shade message
for the brand), a single scenario titled "Primary plan" with null roots
and melt, `ends.formula` = "N/A — reason.", `processing` = [reason] and
confidence 0. -/
theorem c1_fallback_after_two_failures (category brand : Str) (collab : Nat → AnalysisResult)
    (h0 : (validateOut (pipelineStage brand (collab 0)) brand).valid = false)
    (h1 : (validateOut (pipelineStage brand (collab 1)) brand).valid = false) :
    generatePlanC collab category brand =
      (let reason := (validateOut (pipelineStage brand (collab 1)) brand).reason
       let message := if reason.isEmpty then sl "Unrecognized shade(s) for " ++ brand else reason
       ({ analysis := message,
          scenarios := some [{
            title := some (sl "Primary plan"), condition := none, target_level := none,
            roots := none, melt := none,
            ends := some ⟨some (sl "N/A — " ++ message ++ sl "."), some [], none⟩,
            processing := [message],
            confidence := 0 }] }, 2)) := by
  simp only [generatePlanC, fallbackResult, h0, h1, Bool.false_eq_true, if_false]

/-- Witness for C1: brand Redken Shades EQ, a collaborator returning the
non-conforming code "6-66" on both attempts. -/
theorem c1_fallback_witness :
    ((validateOut (pipelineStage (sl "Redken Shades EQ")
        ((fun _ => buildOut (sl "6-66")) 0)) (sl "Redken Shades EQ")).valid = false ∧
     (validateOut (pipelineStage (sl "Redken Shades EQ")
        ((fun _ => buildOut (sl "6-66")) 1)) (sl "Redken Shades EQ")).valid = false) ∧
    generatePlanC (fun _ => buildOut (sl "6-66")) (sl "demi") (sl "Redken Shades EQ") =
      (let reason := (validateOut (pipelineStage (sl "Redken Shades EQ")
         ((fun _ => buildOut (sl "6-66")) 1)) (sl "Redken Shades EQ")).reason
       let message := if reason.isEmpty
         then sl "Unrecognized shade(s) for " ++ sl "Redken Shades EQ" else reason
       ({ analysis := message,
          scenarios := some [{
            title := some (sl "Primary plan"), condition := none, target_level := none,
            roots := none, melt := none,
            ends := some ⟨some (sl "N/A — " ++ message ++ sl "."), some [], none⟩,
            processing := [message],
            confidence := 0 }] }, 2)) :=
  ⟨⟨by decide, by decide⟩,
   c1_fallback_after_two_failures (sl "demi") (sl "Redken Shades EQ")
     (fun _ => buildOut (sl "6-66")) (by decide) (by decide)⟩

/-- C7 (amended): for every RTU brand, a step formula that is non-empty,
does not begin with "N/A", and contains an "n:m" ratio token or the word
"with", fails the acceptance gate. -/
theorem c7_rtu_gate_rejects (brand : Str) (rule : BrandRule) (st : Step) (f : Str)
    (hr : BRAND_RULES brand = some rule)
    (hrtu : containsCI rule.ratio (sl "rtu") = true)
    (hf : st.formula = some f)
    (hne : f.isEmpty = false)
    (hna : naStart f = false)
    (h : dcdSearch f = true ∨ hasWithTok f = true) :
    stepHasRatioAndDeveloper (some st) brand = false := by
  rcases h with h | h <;>
    simp [stepHasRatioAndDeveloper, hf, hne, hna, hr, hrtu, h]

/-- Witness for C7: the RTU brand Wella Color Fresh rejects the selftest's
formula "8/03 (1:1) with Developer". -/
theorem c7_rtu_gate_witness :
    (BRAND_RULES (sl "Wella Color Fresh")
       = some ⟨sl "semi", sl "RTU", sl "None"⟩ ∧
     containsCI (sl "RTU") (sl "rtu") = true ∧
     (sl "8/03 (1:1) with Developer").isEmpty = false ∧
     naStart (sl "8/03 (1:1) with Developer") = false ∧
     dcdSearch (sl "8/03 (1:1) with Developer") = true) ∧
    stepHasRatioAndDeveloper
      (some ⟨some (sl "8/03 (1:1) with Developer"), none, none⟩)
      (sl "Wella Color Fresh") = false :=
  ⟨⟨by decide, by decide, by decide, by decide, by decide⟩,
   c7_rtu_gate_rejects (sl "Wella Color Fresh") ⟨sl "semi", sl "RTU", sl "None"⟩
     ⟨some (sl "8/03 (1:1) with Developer"), none, none⟩ (sl "8/03 (1:1) with Developer")
     (by decide) (by decide) rfl (by decide) (by decide) (Or.inl (by decide))⟩

/-- C9: for a brand in the N-series-black set and analysis text matching
the level-1/2/black cue, the neutral-black normalizer rewrites every
step's formula with the whole-word 1A→1N replacement (so "1A + 1A"
becomes "1N + 1N" while the substring "1AB" is untouched); for brands
outside the set or texts without the cue the result is unchanged. -/
theorem c9_neutral_black (out : AnalysisResult) (a b : Str) :
    (N_SERIES_BLACK_BRANDS.contains b = true → isLevel12Black a = true →
      enforceNeutralBlack out a b =
        { out with scenarios := out.scenarios.map (List.map (fun sc =>
            { sc with roots := replace1Awith1N sc.roots,
                      melt := replace1Awith1N sc.melt,
                      ends := replace1Awith1N sc.ends })) }) ∧
    (N_SERIES_BLACK_BRANDS.contains b = false → enforceNeutralBlack out a b = out) ∧
    (isLevel12Black a = false → enforceNeutralBlack out a b = out) ∧
    replaceAll1A (sl "1A + 1A") = sl "1N + 1N" ∧
    replaceAll1A (sl "1AB") = sl "1AB" ∧
    isLevel12Black (sl "level 1-2") = true := by
  obtain ⟨oa, osc⟩ := out
  refine ⟨?_, ?_, ?_, by decide, by decide, by decide⟩
  · intro hm hc
    cases osc with
    | none => rfl
    | some scs =>
      simp only [enforceNeutralBlack, hm, hc, Bool.not_true, Bool.false_eq_true, if_false,
        Option.map_some']
  · intro hm
    cases osc with
    | none => rfl
    | some scs =>
      simp only [enforceNeutralBlack, hm, Bool.not_false, if_true]
  · intro hc
    cases osc with
    | none => rfl
    | some scs =>
      cases hm : N_SERIES_BLACK_BRANDS.contains b with
      | false => simp only [enforceNeutralBlack, hm, Bool.not_false, if_true]
      | true =>
        simp only [enforceNeutralBlack, hm, hc, Bool.not_true, Bool.not_false,
          Bool.false_eq_true, if_false, if_true]

/-- Witness for C9: Redken Shades EQ, analysis "level 1-2", one scenario
whose `ends` formula is "1A + 1A". -/
theorem c9_neutral_black_witness :
    (N_SERIES_BLACK_BRANDS.contains (sl "Redken Shades EQ") = true ∧
     isLevel12Black (sl "level 1-2") = true) ∧
    enforceNeutralBlack (buildOut (sl "1A + 1A")) (sl "level 1-2") (sl "Redken Shades EQ") =
      { buildOut (sl "1A + 1A") with
        scenarios := (buildOut (sl "1A + 1A")).scenarios.map (List.map (fun sc =>
          { sc with roots := replace1Awith1N sc.roots,
                    melt := replace1Awith1N sc.melt,
                    ends := replace1Awith1N sc.ends })) } :=
  ⟨⟨by decide, by decide⟩,
   (c9_neutral_black (buildOut (sl "1A + 1A")) (sl "level 1-2") (sl "Redken Shades EQ")).1
     (by decide) (by decide)⟩

/-- The pipeline leaves the `Parse error` stub unchanged, whatever the
brand. -/
lemma stage_stub (brand : Str) : pipelineStage brand stubResult = stubResult := by
  have h1 : normalizeScenarios brand stubResult = stubResult := rfl
  have h2 : enforceNeutralBlack stubResult stubResult.analysis brand = stubResult := by
    unfold enforceNeutralBlack
    cases hm : N_SERIES_BLACK_BRANDS.contains brand with
    | false => simp only [stubResult, hm, Bool.not_false, if_true]
    | true =>
      have hl : isLevel12Black (sl "Parse error") = false := by decide
      simp only [stubResult, hm, hl, Bool.not_true, Bool.not_false, Bool.false_eq_true,
        if_false, if_true]
  have h3 : expressTonesGuard stubResult stubResult.analysis brand = stubResult := by
    by_cases hb : brand = sl "Pravana ChromaSilk Express Tones"
    · subst hb; decide
    · unfold expressTonesGuard
      rw [if_pos hb]
  simp only [pipelineStage, h1, h2, h3]

/-- C2 (amended): the parse step never throws when the brace extraction
finds no candidate — it yields the fixed `Parse error` stub — but that
stub VALIDATES (an empty scenario list passes `validateOut`), so it is
accepted on the first attempt rather than feeding the retry/fallback path;
and when a brace candidate exists but is itself unparseable, the
re-parse's exception escapes the parse step. -/
theorem c2_unparseable_is_accepted_stub :
    (∀ t : Str, jsonOk t = false → braceMatch t = none → parseStep t = ParseOutcome.stub) ∧
    (∀ t c : Str, jsonOk t = false → braceMatch t = some c → jsonOk c = false →
      parseStep t = ParseOutcome.err) ∧
    (∀ brand : Str, validateOut stubResult brand = ⟨true, []⟩) ∧
    (∀ category brand : Str,
      generatePlanC (fun _ => stubResult) category brand = (stubResult, 1)) := by
  refine ⟨?_, ?_, fun _ => rfl, ?_⟩
  · intro t h1 h2
    simp [parseStep, h1, h2]
  · intro t c h1 h2 h3
    simp [parseStep, h1, h2, h3]
  · intro category brand
    simp only [generatePlanC, stage_stub]
    have hv : (validateOut stubResult brand).valid = true := rfl
    simp only [hv, if_true]
    by_cases hcat : category = sl "permanent"
    · simp [collapseScenarios, hcat, stubResult]
    · simp [collapseScenarios, hcat, stubResult]

/-- Witness for C2: the unparseable text "hello" (no brace candidate)
yields the stub. -/
theorem c2_unparseable_witness :
    (jsonOk (sl "hello") = false ∧ braceMatch (sl "hello") = none) ∧
    parseStep (sl "hello") = ParseOutcome.stub :=
  ⟨⟨by decide, by decide⟩,
   c2_unparseable_is_accepted_stub.1 (sl "hello") (by decide) (by decide)⟩

/-- Normalization does not change whether the scenario field is an
array. -/
lemma normalize_isSome (brand : Str) (o : AnalysisResult) :
    ((normalizeScenarios brand o).scenarios).isSome = (o.scenarios).isSome := by
  obtain ⟨oa, osc⟩ := o
  cases osc <;> rfl

/-- The neutral-black guard does not change whether the scenario field is
an array. -/
lemma neutralBlack_isSome (o : AnalysisResult) (a brand : Str) :
    ((enforceNeutralBlack o a brand).scenarios).isSome = (o.scenarios).isSome := by
  obtain ⟨oa, osc⟩ := o
  cases osc with
  | none => rfl
  | some scs =>
    unfold enforceNeutralBlack
    cases hm : N_SERIES_BLACK_BRANDS.contains brand with
    | false => simp only [hm, Bool.not_false, if_true]
    | true =>
      cases hl : isLevel12Black a with
      | false => simp only [hm, hl, Bool.not_true, Bool.not_false, Bool.false_eq_true,
          if_false, if_true]
      | true => simp only [hm, hl, Bool.not_true, Bool.false_eq_true, if_false,
          Option.isSome_some]

/-- The Express Tones guard does not change whether the scenario field is
an array. -/
lemma guard_isSome (o : AnalysisResult) (a brand : Str) :
    ((expressTonesGuard o a brand).scenarios).isSome = (o.scenarios).isSome := by
  obtain ⟨oa, osc⟩ := o
  unfold expressTonesGuard
  by_cases hb : brand = sl "Pravana ChromaSilk Express Tones"
  · rw [if_neg (by simp [hb])]
    cases osc with
    | none => rfl
    | some scs =>
      by_cases hj : reSearch jetBlackRe (lower a) = true
      · simp [hj]
      · simp only [Bool.not_eq_true] at hj
        by_cases hv : (reSearch vividRedRe (lower a) || reSearch cherryRe (lower a)) = true
        · simp [hj, hv]
        · simp only [Bool.not_eq_true] at hv
          simp [hj, hv]
  · rw [if_pos hb]

/-- One attempt's post-processing keeps the scenario field an array. -/
lemma stage_isSome (brand : Str) (o : AnalysisResult) (h : (o.scenarios).isSome = true) :
    ((pipelineStage brand o).scenarios).isSome = true := by
  unfold pipelineStage
  rw [guard_isSome, neutralBlack_isSome, normalize_isSome]
  exact h

/-- For demi/semi the collapse of an array yields at most one scenario. -/
lemma collapse_le_one (category : Str) (out : AnalysisResult) (l : List Scenario)
    (hcat : ¬(category = sl "permanent")) (h : out.scenarios = some l) :
    ∃ l', (collapseScenarios category out).scenarios = some l' ∧ l'.length ≤ 1 := by
  cases hf : l.find? titleHasPrimary with
  | some p =>
    refine ⟨[p], ?_, by simp⟩
    simp only [collapseScenarios, if_neg hcat, h, hf]
  | none =>
    cases l with
    | nil =>
      refine ⟨[], ?_, by simp⟩
      simp only [collapseScenarios, if_neg hcat, h, hf]
    | cons a t =>
      refine ⟨[a], ?_, by simp⟩
      simp only [collapseScenarios, if_neg hcat, h, hf]

/-- C8 (amended): for demi/semi, when every collaborator response carries
a scenario array, the returned scenario list has AT MOST one element —
exactly one on the fallback path, but zero when the validated output's
array was empty — and the collapse step keeps the first scenario whose
title contains "primary" (case-insensitively) whenever one exists. -/
theorem c8_demi_semi_at_most_one (category brand : Str) (collab : Nat → AnalysisResult)
    (hcat : category ≠ sl "permanent")
    (harr : ∀ n, (((collab n).scenarios)).isSome = true) :
    (∃ l, ((generatePlanC collab category brand).1.scenarios) = some l ∧ l.length ≤ 1) ∧
    ((validateOut (pipelineStage brand (collab 0)) brand).valid = false →
     (validateOut (pipelineStage brand (collab 1)) brand).valid = false →
     ∃ sc, ((generatePlanC collab category brand).1.scenarios) = some [sc]) ∧
    (∀ out : AnalysisResult, ∀ l p, out.scenarios = some l →
      l.find? titleHasPrimary = some p →
      (collapseScenarios category out).scenarios = some [p]) := by
  refine ⟨?_, ?_, ?_⟩
  · simp only [generatePlanC]
    cases hv0 : (validateOut (pipelineStage brand (collab 0)) brand).valid with
    | true =>
      simp only [hv0, if_true]
      obtain ⟨l0, hl0⟩ := Option.isSome_iff_exists.mp (stage_isSome brand _ (harr 0))
      exact collapse_le_one category _ l0 hcat hl0
    | false =>
      simp only [hv0, Bool.false_eq_true, if_false]
      cases hv1 : (validateOut (pipelineStage brand (collab 1)) brand).valid with
      | true =>
        simp only [hv1, if_true]
        obtain ⟨l1, hl1⟩ := Option.isSome_iff_exists.mp (stage_isSome brand _ (harr 1))
        exact collapse_le_one category _ l1 hcat hl1
      | false =>
        simp only [hv1, Bool.false_eq_true, if_false]
        exact ⟨_, rfl, by simp [fallbackResult]⟩
  · intro h0 h1
    simp only [generatePlanC, h0, h1, Bool.false_eq_true, if_false]
    exact ⟨_, rfl⟩
  · intro out l p h hf
    simp only [collapseScenarios, if_neg hcat, h, hf]

/-- Witness for C8: category demi, brand Wella Koleston Perfect, a
collaborator that always returns one valid scenario. -/
theorem c8_demi_semi_witness :
    ((sl "demi") ≠ sl "permanent" ∧
     ∀ n : Nat, ((((fun _ => buildOut (sl "7/43")) n : AnalysisResult).scenarios)).isSome = true) ∧
    (∃ l, ((generatePlanC (fun _ => buildOut (sl "7/43")) (sl "demi")
        (sl "Wella Koleston Perfect")).1.scenarios) = some l ∧ l.length ≤ 1) :=
  ⟨⟨by decide, fun _ => rfl⟩,
   (c8_demi_semi_at_most_one (sl "demi") (sl "Wella Koleston Perfect")
     (fun _ => buildOut (sl "7/43")) (by decide) (fun _ => rfl)).1⟩

/-! ## Basic string lemmas -/

/-- The substring test agrees with list infixhood. -/
lemma containsSub_iff {s pat : Str} : containsSub s pat = true ↔ pat <:+: s := by
  unfold containsSub
  rw [List.any_eq_true]
  constructor
  · rintro ⟨t, ht, hp⟩
    rw [List.mem_tails _ _] at ht
    exact List.infix_iff_prefix_suffix.mpr ⟨t, List.isPrefixOf_iff_prefix.mp hp, ht⟩
  · intro h
    obtain ⟨t, hp, hs⟩ := List.infix_iff_prefix_suffix.mp h
    exact ⟨t, (List.mem_tails _ _).mpr hs, List.isPrefixOf_iff_prefix.mpr hp⟩

lemma dropWhile_dropWhile (p : Char → Bool) (l : Str) :
    (l.dropWhile p).dropWhile p = l.dropWhile p := by
  induction l with
  | nil => rfl
  | cons a t ih =>
    rw [List.dropWhile_cons]
    by_cases h : p a
    · simp [h, ih]
    · simp [List.dropWhile_cons, h]

lemma trimR_eq_reverse (s : Str) : trimR s = (trimL s.reverse).reverse := rfl

lemma trimL_trimL (s : Str) : trimL (trimL s) = trimL s := dropWhile_dropWhile _ _

lemma trimR_trimR (s : Str) : trimR (trimR s) = trimR s := by
  unfold trimR
  rw [List.reverse_reverse, dropWhile_dropWhile]

lemma trimL_of_isPre {x y : Str} (hy : trimL y = y) (hp : x <+: y) : trimL x = x := by
  cases x with
  | nil => rfl
  | cons a t =>
    cases y with
    | nil => exact absurd (List.IsPrefix.length_le hp) (by simp)
    | cons b y' =>
      obtain ⟨rfl, -⟩ := List.cons_prefix_cons.mp hp
      unfold trimL at hy ⊢
      rw [List.dropWhile_cons] at hy ⊢
      by_cases h : wsB a
      · exfalso
        rw [if_pos h] at hy
        have := congrArg List.length hy
        have hle : (List.dropWhile wsB y').length ≤ y'.length := by
          have := List.dropWhile_suffix (l := y') wsB
          exact this.length_le
        simp at this
        omega
      · rw [if_neg h]

lemma trimR_isPre (s : Str) : trimR s <+: s := by
  unfold trimR
  rw [← List.reverse_suffix, List.reverse_reverse]
  exact List.dropWhile_suffix _

lemma trim_trim (s : Str) : trim (trim s) = trim s := by
  unfold trim
  rw [trimL_of_isPre (trimL_trimL s) (trimR_isPre (trimL s)), trimR_trimR]

/-- Characters that survive a left trim: an occurrence headed by a
non-whitespace character. -/
lemma trimL_keep {w t : Str} (hh : wsB (t.headD ' ') = false) :
    ∃ u', trimL (w ++ t) = u' ++ t := by
  induction w with
  | nil =>
    refine ⟨[], ?_⟩
    cases t with
    | nil => exact absurd hh (by decide)
    | cons c t' =>
      simp only [List.headD] at hh
      simp [trimL, List.dropWhile_cons, hh]
  | cons a w ih =>
    by_cases h : wsB a
    · obtain ⟨u', hu⟩ := ih
      exact ⟨u', by simpa [trimL, List.dropWhile_cons, h] using hu⟩
    · exact ⟨a :: w, by simp [trimL, List.dropWhile_cons, h]⟩

lemma headD_reverse (l : Str) (d : Char) : l.reverse.headD d = l.getLastD d := by
  rw [List.headD_eq_head?, List.head?_reverse, List.getLastD_eq_getLast?]

lemma trimR_keep {x v : Str} (hl : wsB (x.getLastD ' ') = false) :
    ∃ v', trimR (x ++ v) = x ++ v' := by
  have hh : wsB (x.reverse.headD ' ') = false := by rwa [headD_reverse]
  obtain ⟨u', hu⟩ := trimL_keep (w := v.reverse) (t := x.reverse) hh
  refine ⟨u'.reverse, ?_⟩
  unfold trimR
  unfold trimL at hu
  rw [List.reverse_append, hu, List.reverse_append, List.reverse_reverse]

lemma headD_append_of_ne_nil {t v : Str} (h : t ≠ []) (d : Char) :
    (t ++ v).headD d = t.headD d := by
  rw [List.headD_eq_head?, List.headD_eq_head?, List.head?_append_of_ne_nil _ h]

lemma getLastD_append_of_ne_nil {u t : Str} (h : t ≠ []) (d : Char) :
    (u ++ t).getLastD d = t.getLastD d := by
  rw [List.getLastD_eq_getLast?, List.getLastD_eq_getLast?,
    List.getLast?_append_of_ne_nil _ h]

/-- An occurrence with non-whitespace edges survives a full trim. -/
lemma trim_keep {d u v s : Str} (hne : d ≠ []) (hh : wsB (d.headD ' ') = false)
    (hl : wsB (d.getLastD ' ') = false) (hs : s = u ++ d ++ v) :
    ∃ u' v', trim s = u' ++ d ++ v' := by
  subst hs
  have hh' : wsB ((d ++ v).headD ' ') = false := by rwa [headD_append_of_ne_nil hne]
  obtain ⟨u₁, hu₁⟩ := trimL_keep (w := u) (t := d ++ v) hh'
  have hl' : wsB ((u₁ ++ d).getLastD ' ') = false := by rwa [getLastD_append_of_ne_nil hne]
  obtain ⟨v₂, hv₂⟩ := trimR_keep (x := u₁ ++ d) (v := v) hl'
  refine ⟨u₁, v₂, ?_⟩
  unfold trim
  rw [List.append_assoc, hu₁, ← List.append_assoc, hv₂]

/-! ## Character-level facts about `toLower` -/

lemma ws_toNat {c : Char} (h : wsB c = true) :
    c.toNat = 32 ∨ c.toNat = 9 ∨ c.toNat = 10 ∨ c.toNat = 13 ∨ c.toNat = 11 ∨
    c.toNat = 12 ∨ c.toNat = 0xa0 ∨ c.toNat = 0x1680 ∨
    (0x2000 ≤ c.toNat ∧ c.toNat ≤ 0x200a) ∨ c.toNat = 0x2028 ∨ c.toNat = 0x2029 ∨
    c.toNat = 0x202f ∨ c.toNat = 0x205f ∨ c.toNat = 0x3000 ∨ c.toNat = 0xfeff := by
  unfold wsB at h
  simp only [Bool.or_eq_true, Bool.and_eq_true, decide_eq_true_eq] at h
  rcases h with ((((((((((((((h | h) | h) | h) | h) | h) | h) | h) | h) | h) | h) | h) | h) | h) | h)
  · subst h; decide
  · subst h; decide
  · subst h; decide
  · subst h; decide
  · subst h; decide
  · subst h; decide
  · have h' : c.toNat = 0xa0 := congrArg UInt32.toNat h
    omega
  · have h' : c.toNat = 0x1680 := congrArg UInt32.toNat h
    omega
  · have h1 : 0x2000 ≤ c.toNat := h.1
    have h2 : c.toNat ≤ 0x200a := h.2
    omega
  · have h' : c.toNat = 0x2028 := congrArg UInt32.toNat h
    omega
  · have h' : c.toNat = 0x2029 := congrArg UInt32.toNat h
    omega
  · have h' : c.toNat = 0x202f := congrArg UInt32.toNat h
    omega
  · have h' : c.toNat = 0x205f := congrArg UInt32.toNat h
    omega
  · have h' : c.toNat = 0x3000 := congrArg UInt32.toNat h
    omega
  · have h' : c.toNat = 0xfeff := congrArg UInt32.toNat h
    omega

lemma ws_not_upper {c : Char} (h : wsB c = true) : ¬(65 ≤ c.toNat ∧ c.toNat ≤ 90) := by
  rcases ws_toNat h with h | h | h | h | h | h | h | h | h | h | h | h | h | h | h <;> omega

lemma toLower_eq_self_of_ws {c : Char} (h : wsB c = true) : c.toLower = c := by
  simp only [Char.toLower]
  rw [if_neg]
  intro hc
  exact ws_not_upper h ⟨hc.1, hc.2⟩

lemma wordB_of_toLower {c : Char} (h : wordB c.toLower = true) : wordB c = true := by
  by_cases hc : 65 ≤ c.toNat ∧ c.toNat ≤ 90
  · have h1 : ('A' : Char) ≤ c := hc.1
    have h2 : c ≤ 'Z' := hc.2
    unfold wordB
    simp [h1, h2]
  · simp only [Char.toLower] at h
    rw [if_neg (fun hc' => hc ⟨hc'.1, hc'.2⟩)] at h
    exact h

lemma ws_of_toLower_ws {c : Char} {x : Char} (hcx : c.toLower = x) (hx : wsB x = false) :
    wsB c = false := by
  by_cases h : wsB c
  · rw [toLower_eq_self_of_ws h] at hcx
    subst hcx
    rw [h] at hx
    cases hx
  · simpa using h

/-! ## Decomposing prefixes and infixes of an append -/

lemma prefSplit {α : Type} {l xs ys : List α} (h : l <+: xs ++ ys) :
    l <+: xs ∨ ∃ y, l = xs ++ y ∧ y <+: ys := by
  induction xs generalizing l with
  | nil => exact Or.inr ⟨l, (List.nil_append l).symm, by simpa using h⟩
  | cons a xs ih =>
    cases l with
    | nil => exact Or.inl List.nil_prefix
    | cons b l =>
      rw [List.cons_append, List.cons_prefix_cons] at h
      obtain ⟨rfl, h⟩ := h
      rcases ih h with h | ⟨y, rfl, hy⟩
      · exact Or.inl (List.cons_prefix_cons.mpr ⟨rfl, h⟩)
      · exact Or.inr ⟨y, by simp, hy⟩

lemma infixSplit {α : Type} {l xs ys : List α} (h : l <:+: xs ++ ys) :
    l <:+: xs ∨ l <:+: ys ∨
      ∃ x y, l = x ++ y ∧ x ≠ [] ∧ y ≠ [] ∧ x <:+ xs ∧ y <+: ys := by
  induction xs generalizing l with
  | nil => exact Or.inr (Or.inl (by simpa using h))
  | cons a xs ih =>
    rw [List.cons_append, List.infix_cons_iff] at h
    rcases h with h | h
    · rw [← List.cons_append] at h
      rcases prefSplit h with h | ⟨y, rfl, hy⟩
      · exact Or.inl h.isInfix
      · cases y with
        | nil => exact Or.inl (by simp)
        | cons c y' =>
          exact Or.inr (Or.inr ⟨a :: xs, c :: y', rfl, by simp, by simp,
            List.suffix_refl _, hy⟩)
    · rcases ih h with h | h | ⟨x, y, rfl, hx, hy, hxs, hyp⟩
      · exact Or.inl (List.infix_cons h)
      · exact Or.inr (Or.inl h)
      · exact Or.inr (Or.inr ⟨x, y, rfl, hx, hy, hxs.trans (List.suffix_cons a xs), hyp⟩)

/-! ## Soundness of the `\bwith\b` scanner -/

lemma findWithGo_sound : ∀ (l : Str) (prev : Option Char) (acc A W B : Str),
    findWithGo prev acc l = some (A, W, B) → prev = acc.head? →
    A ++ (W ++ B) = acc.reverse ++ l ∧ lower W = sl "with" ∧
    wordOpt A.getLast? = false ∧ wordOpt B.head? = false := by
  intro l
  induction l with
  | nil =>
    intro prev acc A W B h _
    simp [findWithGo] at h
  | cons c t ih =>
    intro prev acc A W B h hprev
    rw [findWithGo] at h
    by_cases hw : withAt prev (c :: t) = true
    · rw [if_pos hw] at h
      cases h
      refine ⟨by rw [List.take_append_drop], ?_, ?_, ?_⟩
      · cases t with
        | nil => simp [withAt] at hw
        | cons c2 t2 =>
          cases t2 with
          | nil => simp [withAt] at hw
          | cons c3 t3 =>
            cases t3 with
            | nil => simp [withAt] at hw
            | cons c4 t4 =>
              simp only [withAt, Bool.and_eq_true, decide_eq_true_eq] at hw
              obtain ⟨⟨⟨⟨⟨h1, h2⟩, h3⟩, h4⟩, -⟩, -⟩ := hw
              simp [lower, List.take, h1, h2, h3, h4, sl]
      · cases t with
        | nil => simp [withAt] at hw
        | cons c2 t2 =>
          cases t2 with
          | nil => simp [withAt] at hw
          | cons c3 t3 =>
            cases t3 with
            | nil => simp [withAt] at hw
            | cons c4 t4 =>
              simp only [withAt, Bool.and_eq_true, decide_eq_true_eq,
                Bool.not_eq_true'] at hw
              rw [List.getLast?_reverse, ← hprev]
              exact hw.1.2
      · cases t with
        | nil => simp [withAt] at hw
        | cons c2 t2 =>
          cases t2 with
          | nil => simp [withAt] at hw
          | cons c3 t3 =>
            cases t3 with
            | nil => simp [withAt] at hw
            | cons c4 t4 =>
              simp only [withAt, Bool.and_eq_true, decide_eq_true_eq,
                Bool.not_eq_true'] at hw
              simpa using hw.2
    · rw [if_neg hw] at h
      obtain ⟨heq, h1, h2, h3⟩ := ih (some c) (c :: acc) A W B h rfl
      refine ⟨?_, h1, h2, h3⟩
      rw [heq, List.reverse_cons, List.append_assoc]
      rfl

lemma findWith_sound {s A W B : Str} (h : findWith s = some (A, W, B)) :
    s = A ++ (W ++ B) ∧ lower W = sl "with" ∧
    wordOpt A.getLast? = false ∧ wordOpt B.head? = false := by
  obtain ⟨heq, h1, h2, h3⟩ := findWithGo_sound s none [] A W B h rfl
  exact ⟨by simpa using heq.symm, h1, h2, h3⟩

/-! ## An occurrence of a developer name avoids the `with` token -/

lemma avoid_with {d' A W B : Str}
    (hW : lower W = sl "with")
    (hB : wordOpt B.head? = false)
    (hlen : 4 < d'.length)
    (h2 : ¬(sl "with" <:+: lower d'))
    (h3 : ∀ k, k ∈ ([1, 2, 3] : List Nat) → ¬((sl "with").take k <:+ lower d'))
    (h4 : ∀ k, k ∈ ([1, 2, 3] : List Nat) → ((sl "with").drop k <+: lower d') →
      wordB ((lower d').getD (4 - k) ' ') = true)
    (hocc : d' <:+: A ++ W ++ B) : d' <:+: A ∨ d' <:+: B := by
  have hW4 : W.length = 4 := by
    have := congrArg List.length hW
    simpa [lower, sl] using this
  rw [List.append_assoc] at hocc
  rcases infixSplit hocc with h | h | ⟨x, y, hd, hx0, hy0, hxA, hyWB⟩
  · exact Or.inl h
  · rcases infixSplit h with h | h | ⟨x, y, hd, hx0, hy0, hxW, hyB⟩
    · exact absurd (List.IsInfix.length_le h) (by omega)
    · exact Or.inr h
    · exfalso
      obtain ⟨w₀, hw₀⟩ := hxW
      have hxlen : x.length ≤ 4 := by
        have := congrArg List.length hw₀
        simp at this
        omega
      have hxlen1 : 1 ≤ x.length := by
        cases x
        · exact absurd rfl hx0
        · simp
      by_cases hx4 : x.length = 4
      · have hw0nil : w₀ = [] := by
          have := congrArg List.length hw₀
          simp at this
          exact List.length_eq_zero.mp (by omega)
        subst hw0nil
        simp only [List.nil_append] at hw₀
        subst hw₀
        apply h2
        apply List.IsPrefix.isInfix
        rw [hd, lower, List.map_append, ← lower, ← lower, hW]
        exact List.prefix_append _ _
      · set k := 4 - x.length with hk
        have hkmem : k ∈ ([1, 2, 3] : List Nat) := by
          simp only [List.mem_cons, List.mem_singleton]
          omega
        have hlenw0 : (lower w₀).length = k := by
          have := congrArg List.length hw₀
          simp [lower] at this ⊢
          omega
        have hlx : lower x = (sl "with").drop k := by
          have hall : lower w₀ ++ lower x = sl "with" := by
            have hlW : lower (w₀ ++ x) = sl "with" := by
              rw [show (lower (w₀ ++ x)) = lower W from congrArg lower hw₀]
              exact hW
            rw [← hlW]
            simp [lower]
          rw [← hall, ← hlenw0, List.drop_left]
        have hpre : (sl "with").drop k <+: lower d' := by
          rw [hd, lower, List.map_append, ← lower, ← lower, ← hlx]
          exact List.prefix_append _ _
        have hword := h4 k hkmem hpre
        have h4k : 4 - k = x.length := by omega
        cases y with
        | nil => exact hy0 rfl
        | cons c y' =>
          cases B with
          | nil => exact absurd (List.IsPrefix.length_le hyB) (by simp)
          | cons b B' =>
            obtain ⟨rfl, -⟩ := List.cons_prefix_cons.mp hyB
            have hgd : (lower d').getD (4 - k) ' ' = c.toLower := by
              rw [h4k, hd, lower, List.map_append]
              rw [List.getD_append_right _ _ _ _ (by simp)]
              simp
            rw [hgd] at hword
            have hcw : wordB c = true := wordB_of_toLower hword
            simp only [wordOpt, List.head?_cons] at hB
            rw [hcw] at hB
            cases hB
  · exfalso
    rcases prefSplit hyWB with hyW | ⟨y₂, hy2, hy₂B⟩
    · have hylen : y.length ≤ 4 := hW4 ▸ List.IsPrefix.length_le hyW
      have hylen1 : 1 ≤ y.length := by
        cases y
        · exact absurd rfl hy0
        · simp
      by_cases hy4 : y.length = 4
      · have hyW' : y = W := List.IsPrefix.eq_of_length hyW (by omega)
        subst hyW'
        apply h2
        apply List.IsSuffix.isInfix
        rw [hd, lower, List.map_append, ← lower, ← lower, ← hW]
        exact List.suffix_append _ _
      · have hkmem : y.length ∈ ([1, 2, 3] : List Nat) := by
          simp only [List.mem_cons, List.mem_singleton]
          omega
        have hly : lower y = (sl "with").take y.length := by
          have hp : lower y <+: sl "with" := hW ▸ List.IsPrefix.map Char.toLower hyW
          have := List.prefix_iff_eq_take.mp hp
          simpa [lower] using this
        apply h3 y.length hkmem
        rw [← hly, hd]
        show lower y <:+ lower (x ++ y)
        simp only [lower, List.map_append]
        exact List.suffix_append _ _
    · apply h2
      have hld : lower d' = lower x ++ (sl "with" ++ lower y₂) := by
        rw [hd, hy2, lower, List.map_append, List.map_append, ← lower, ← lower, ← lower, hW]
      rw [hld, ← List.append_assoc]
      exact List.infix_append _ _ _

/-! ## Character classes: digits are not whitespace -/

lemma digit_toNat {c : Char} (h : digitB c = true) : 48 ≤ c.toNat ∧ c.toNat ≤ 57 := by
  unfold digitB at h
  simp only [Bool.and_eq_true, decide_eq_true_eq] at h
  exact ⟨h.1, h.2⟩

lemma digit_not_ws {c : Char} (h : digitB c = true) : wsB c = false := by
  by_cases hw : wsB c
  · exfalso
    obtain ⟨h1, h2⟩ := digit_toNat h
    rcases ws_toNat hw with h' | h' | h' | h' | h' | h' | h' | h' | h' | h' | h' | h' | h' | h' | h' <;> omega
  · simpa using hw

lemma ws_not_digit {c : Char} (h : wsB c = true) : digitB c = false := by
  by_cases hd : digitB c
  · rw [digit_not_ws hd] at h
    cases h
  · simpa using hd

/-! ## Scanners on an append whose right part starts outside the class -/

lemma takeWhile_app {p : Char → Bool} {ys : Str} (xs : Str)
    (hxs : ∀ a ∈ xs, p a = true) (hy : ∀ c, ys.head? = some c → p c = false) :
    (xs ++ ys).takeWhile p = xs ∧ (xs ++ ys).dropWhile p = ys := by
  induction xs with
  | nil =>
    simp only [List.nil_append]
    cases ys with
    | nil => exact ⟨rfl, rfl⟩
    | cons c t =>
      have hc := hy c rfl
      simp [List.takeWhile_cons, List.dropWhile_cons, hc]
  | cons a xs ih =>
    have ha : p a = true := hxs a (List.mem_cons_self a xs)
    have ih' := ih (fun b hb => hxs b (List.mem_cons_of_mem a hb))
    simp [List.takeWhile_cons, List.dropWhile_cons, ha, ih'.1, ih'.2]

/-! ## Decomposing the optional-fraction skip -/

lemma fracSkip_dot (t : Str) :
    fracSkip ('.' :: t) =
      if (t.takeWhile digitB).isEmpty then '.' :: t else t.dropWhile digitB := rfl

lemma fracSkip_cons_ne {c : Char} (t : Str) (hc : c ≠ '.') : fracSkip (c :: t) = c :: t := by
  unfold fracSkip
  split
  · rename_i t' heq
    obtain ⟨h1, -⟩ := List.cons.inj heq
    exact absurd h1 hc
  · rfl

lemma fracSkip_split (l : Str) : ∃ fa, l = fa ++ fracSkip l ∧
    (fa = [] ∨ ∃ ds, ds ≠ [] ∧ (∀ c ∈ ds, digitB c = true) ∧ fa = '.' :: ds) := by
  unfold fracSkip
  split
  · rename_i t
    by_cases hds : (t.takeWhile digitB).isEmpty
    · exact ⟨[], by simp [hds], Or.inl rfl⟩
    · refine ⟨'.' :: t.takeWhile digitB, ?_, Or.inr ⟨t.takeWhile digitB,
        fun h0 => hds (by rw [h0]; rfl), fun c hc => List.mem_takeWhile_imp hc, rfl⟩⟩
      rw [if_neg hds, List.cons_append, List.takeWhile_append_dropWhile]
  · exact ⟨[], by simp, Or.inl rfl⟩

/-! ## Extracting the shape of a generic ratio-token match -/

lemma ratioAt_extract {t : Str} (h : ratioAt t = true) :
    ∃ m s, t = m ++ s ∧ RatioShape m := by
  unfold ratioAt at h
  by_cases h₀ : (t.takeWhile digitB).isEmpty
  · rw [if_pos h₀] at h
    cases h
  · rw [if_neg h₀] at h
    split at h
    · rename_i r heq
      obtain ⟨fa, hfa_eq, hfa⟩ := fracSkip_split (t.dropWhile digitB)
      have hsplit1 : fracSkip (t.dropWhile digitB) =
          (fracSkip (t.dropWhile digitB)).takeWhile wsB ++ (':' :: r) := by
        conv_lhs => rw [← List.takeWhile_append_dropWhile wsB (fracSkip (t.dropWhile digitB))]
        rw [heq]
      have hb2 : ((r.dropWhile wsB).takeWhile digitB) ≠ [] := by
        intro h0
        rw [h0] at h
        simp at h
      refine ⟨t.takeWhile digitB ++ fa ++ (fracSkip (t.dropWhile digitB)).takeWhile wsB
        ++ [':'] ++ r.takeWhile wsB ++ (r.dropWhile wsB).takeWhile digitB,
        (r.dropWhile wsB).dropWhile digitB, ?_, ?_⟩
      · refine (calc t.takeWhile digitB ++ fa ++ (fracSkip (t.dropWhile digitB)).takeWhile wsB
              ++ [':'] ++ r.takeWhile wsB ++ (r.dropWhile wsB).takeWhile digitB
              ++ (r.dropWhile wsB).dropWhile digitB
            = t.takeWhile digitB ++ (fa ++ ((fracSkip (t.dropWhile digitB)).takeWhile wsB ++
                (':' :: (r.takeWhile wsB ++ ((r.dropWhile wsB).takeWhile digitB ++
                  (r.dropWhile wsB).dropWhile digitB))))) := by simp [List.append_assoc]
          _ = t.takeWhile digitB ++ (fa ++ ((fracSkip (t.dropWhile digitB)).takeWhile wsB ++
                (':' :: (r.takeWhile wsB ++ r.dropWhile wsB)))) := by
              rw [List.takeWhile_append_dropWhile digitB (r.dropWhile wsB)]
          _ = t.takeWhile digitB ++ (fa ++ ((fracSkip (t.dropWhile digitB)).takeWhile wsB ++
                (':' :: r))) := by
              rw [List.takeWhile_append_dropWhile wsB r]
          _ = t.takeWhile digitB ++ (fa ++ fracSkip (t.dropWhile digitB)) := by
              rw [← hsplit1]
          _ = t.takeWhile digitB ++ t.dropWhile digitB := by rw [← hfa_eq]
          _ = t := List.takeWhile_append_dropWhile digitB t).symm
      · refine ⟨t.takeWhile digitB, fa, (fracSkip (t.dropWhile digitB)).takeWhile wsB,
          r.takeWhile wsB, (r.dropWhile wsB).takeWhile digitB, rfl,
          fun h0 => h₀ (by rw [h0]; rfl),
          fun c hc => List.mem_takeWhile_imp hc, hfa,
          fun c hc => List.mem_takeWhile_imp hc,
          fun c hc => List.mem_takeWhile_imp hc, hb2,
          fun c hc => List.mem_takeWhile_imp hc⟩
    · exact Bool.noConfusion h

/-! ## A shape region matches the ratio-token regex under any right extension -/

lemma ratioAt_of_shape {m : Str} (hm : RatioShape m) (y : Str) : ratioAt (m ++ y) = true := by
  obtain ⟨a, fa, w₁, w₂, b2, hmeq, ha, had, hfa, hw₁, hw₂, hb2, hb2d⟩ := hm
  subst hmeq
  rw [show (a ++ fa ++ w₁ ++ [':'] ++ w₂ ++ b2) ++ y
      = a ++ (fa ++ (w₁ ++ (':' :: (w₂ ++ (b2 ++ y))))) from by simp [List.append_assoc]]
  have hhead2 : ∀ c, (w₁ ++ (':' :: (w₂ ++ (b2 ++ y)))).head? = some c → digitB c = false := by
    intro c hc
    cases w₁ with
    | nil =>
      simp only [List.nil_append, List.head?_cons, Option.some.injEq] at hc
      rw [← hc]
      decide
    | cons d w₁' =>
      simp only [List.cons_append, List.head?_cons, Option.some.injEq] at hc
      rw [← hc]
      exact ws_not_digit (hw₁ d (List.mem_cons_self d w₁'))
  have hhead : ∀ c, (fa ++ (w₁ ++ (':' :: (w₂ ++ (b2 ++ y))))).head? = some c →
      digitB c = false := by
    intro c hc
    rcases hfa with rfl | ⟨ds, hds, hdsd, rfl⟩
    · rw [List.nil_append] at hc
      exact hhead2 c hc
    · simp only [List.cons_append, List.head?_cons, Option.some.injEq] at hc
      rw [← hc]
      decide
  obtain ⟨htw, hdw⟩ := takeWhile_app a had hhead
  have hfs : fracSkip (fa ++ (w₁ ++ (':' :: (w₂ ++ (b2 ++ y))))) =
      w₁ ++ (':' :: (w₂ ++ (b2 ++ y))) := by
    rcases hfa with rfl | ⟨ds, hds, hdsd, rfl⟩
    · rw [List.nil_append]
      cases w₁ with
      | nil =>
        rw [List.nil_append]
        exact fracSkip_cons_ne _ (by decide)
      | cons d w₁' =>
        rw [List.cons_append]
        refine fracSkip_cons_ne _ ?_
        intro hd
        have hwd := hw₁ d (List.mem_cons_self d w₁')
        rw [hd] at hwd
        exact absurd hwd (by decide)
    · rw [List.cons_append, fracSkip_dot]
      obtain ⟨htw2, hdw2⟩ := takeWhile_app ds hdsd hhead2
      rw [htw2, if_neg (fun h0 => hds (by simpa using h0))]
      exact hdw2
  have hdwws : (w₁ ++ (':' :: (w₂ ++ (b2 ++ y)))).dropWhile wsB =
      ':' :: (w₂ ++ (b2 ++ y)) := by
    refine (takeWhile_app w₁ hw₁ ?_).2
    intro c hc
    simp only [List.head?_cons, Option.some.injEq] at hc
    rw [← hc]
    decide
  unfold ratioAt
  rw [htw, hdw, if_neg (fun h0 => ha (by simpa using h0))]
  rw [hfs, hdwws]
  show (!(((w₂ ++ (b2 ++ y)).dropWhile wsB).takeWhile digitB).isEmpty) = true
  rcases b2 with _ | ⟨e, b2'⟩
  · exact absurd rfl hb2
  · have hdwb : (w₂ ++ (e :: b2' ++ y)).dropWhile wsB = e :: b2' ++ y := by
      refine (takeWhile_app w₂ hw₂ ?_).2
      intro c hc
      simp only [List.cons_append, List.head?_cons, Option.some.injEq] at hc
      rw [← hc]
      exact digit_not_ws (hb2d e (List.mem_cons_self e b2'))
    rw [hdwb]
    have he : digitB e = true := hb2d e (List.mem_cons_self e b2')
    simp [List.takeWhile_cons, he]

/-! ## Edges of a shape region are not whitespace -/

lemma shape_edges {m : Str} (hm : RatioShape m) :
    m ≠ [] ∧ wsB (m.headD ' ') = false ∧ wsB (m.getLastD ' ') = false := by
  obtain ⟨a, fa, w₁, w₂, b2, hmeq, ha, had, hfa, hw₁, hw₂, hb2, hb2d⟩ := hm
  subst hmeq
  rcases a with _ | ⟨c, a'⟩
  · exact absurd rfl ha
  refine ⟨by simp, ?_, ?_⟩
  · rw [show ((c :: a') ++ fa ++ w₁ ++ [':'] ++ w₂ ++ b2)
        = c :: (a' ++ (fa ++ (w₁ ++ (':' :: (w₂ ++ b2))))) from by simp [List.append_assoc]]
    exact digit_not_ws (had c (List.mem_cons_self c a'))
  · rw [getLastD_append_of_ne_nil hb2]
    have hmem : b2.getLastD ' ' ∈ b2 := by
      rw [← headD_reverse]
      cases hrev : b2.reverse with
      | nil =>
        exact absurd (by simpa using congrArg List.reverse hrev) hb2
      | cons x xs =>
        have hx : x ∈ b2.reverse := by rw [hrev]; exact List.mem_cons_self x xs
        simpa using List.mem_reverse.mp hx
    exact digit_not_ws (hb2d _ hmem)

/-! ## Transport of the ratio search along suffixes and trimming -/

lemma ratioSearch_of_suffix {t s : Str} (hts : t <:+ s) (h : ratioAt t = true) :
    ratioSearch s = true := by
  unfold ratioSearch
  rw [List.any_eq_true]
  exact ⟨t, (List.mem_tails _ _).mpr hts, h⟩

lemma ratioSearch_ex {s : Str} (h : ratioSearch s = true) :
    ∃ t, t <:+ s ∧ ratioAt t = true := by
  unfold ratioSearch at h
  rw [List.any_eq_true] at h
  obtain ⟨t, ht, hAt⟩ := h
  exact ⟨t, (List.mem_tails _ _).mp ht, hAt⟩

lemma ratioSearch_trim {s : Str} (h : ratioSearch s = true) : ratioSearch (trim s) = true := by
  obtain ⟨t, hts, hAt⟩ := ratioSearch_ex h
  obtain ⟨m, tl, rfl, hshape⟩ := ratioAt_extract hAt
  obtain ⟨u, hu⟩ := hts
  obtain ⟨hne, hh, hl⟩ := shape_edges hshape
  obtain ⟨u', v', htr⟩ := trim_keep hne hh hl (show s = u ++ m ++ tl from by
    rw [← hu, List.append_assoc])
  refine ratioSearch_of_suffix (t := m ++ v') ⟨u', ?_⟩ (ratioAt_of_shape hshape v')
  rw [htr, List.append_assoc]

/-! ## Raw occurrences and the case-insensitive containment test -/

lemma rawOcc_containsCI {s d : Str} (h : RawOcc s d) : containsCI s d = true := by
  obtain ⟨u, d', v, rfl, hld⟩ := h
  unfold containsCI
  rw [containsSub_iff]
  refine ⟨lower u, lower v, ?_⟩
  rw [← hld]
  simp [lower]

lemma containsCI_rawOcc {s d : Str} (h : containsCI s d = true) : RawOcc s d := by
  unfold containsCI at h
  rw [containsSub_iff] at h
  obtain ⟨p, q, hpq⟩ := h
  have hpq' : s.map Char.toLower = p ++ (lower d ++ q) := by
    rw [← List.append_assoc, hpq]
    rfl
  rw [List.map_eq_append_iff] at hpq'
  obtain ⟨u, rest, rfl, hu, hrest⟩ := hpq'
  rw [List.map_eq_append_iff] at hrest
  obtain ⟨d', v, rfl, hd', hv⟩ := hrest
  exact ⟨u, d', v, by simp, hd'⟩

/-! ## The developer-injection step leaves or creates a raw occurrence -/

lemma devStep_occ (d g : Str) : RawOcc (devStep (some d) g) d := by
  have hred : devStep (some d) g = if containsCI g d = true then g
      else match findWith g with
        | some (a, _, b) => a ++ sl "with " ++ d ++ b
        | none => g ++ sl " with " ++ d := rfl
  rw [hred]
  by_cases hc : containsCI g d = true
  · rw [if_pos hc]
    exact containsCI_rawOcc hc
  · rw [if_neg hc]
    rcases hfw : findWith g with _ | ⟨a, w, b⟩
    · exact ⟨g ++ sl " with ", d, [], by simp, rfl⟩
    · exact ⟨a ++ sl "with ", d, b, rfl, rfl⟩

/-! ## The ratio-injection step preserves a raw occurrence of a safe name -/

lemma ratioStep_occ {r d h : Str} (hocc : RawOcc h d) (hside : DevSideOK d) :
    RawOcc (ratioStep r h) d := by
  unfold ratioStep
  by_cases hsr : isSimpleRatio r = true
  · rw [if_pos hsr]
    by_cases hrs : ratioSearch h = true
    · rw [if_pos hrs]
      exact hocc
    · rw [if_neg hrs]
      rcases hfw : findWith h with _ | ⟨A, W, B⟩
      · show RawOcc (h ++ (sl " (" ++ r ++ sl ")")) d
        obtain ⟨u, d', v, rfl, hld⟩ := hocc
        exact ⟨u, d', v ++ (sl " (" ++ r ++ sl ")"), by simp [List.append_assoc], hld⟩
      · show RawOcc (A ++ (sl "(" ++ r ++ sl ") with") ++ B) d
        obtain ⟨heq, hW, hA, hB⟩ := findWith_sound hfw
        obtain ⟨u, d', v, hocc_eq, hld⟩ := hocc
        obtain ⟨hl4, h2, h3, h4, -, -⟩ := hside
        have hlen : 4 < d'.length := by
          have h1 : (lower d').length = (lower d).length := by rw [hld]
          simp only [lower, List.length_map] at h1 hl4
          omega
        have h2' : ¬(sl "with" <:+: lower d') := by rw [hld]; exact h2
        have h3' : ∀ k, k ∈ ([1, 2, 3] : List Nat) → ¬((sl "with").take k <:+ lower d') := by
          intro k hk
          rw [hld]
          exact h3 k hk
        have h4' : ∀ k, k ∈ ([1, 2, 3] : List Nat) → ((sl "with").drop k <+: lower d') →
            wordB ((lower d').getD (4 - k) ' ') = true := by
          intro k hk hp
          rw [hld] at hp ⊢
          exact h4 k hk hp
        have hinf : d' <:+: A ++ W ++ B := by
          refine ⟨u, v, ?_⟩
          rw [← hocc_eq, heq, List.append_assoc]
        rcases avoid_with hW hB hlen h2' h3' h4' hinf with hA' | hB'
        · obtain ⟨u₁, v₁, hA₁⟩ := hA'
          refine ⟨u₁, d', v₁ ++ (sl "(" ++ r ++ sl ") with") ++ B, ?_, hld⟩
          rw [← hA₁]
          simp [List.append_assoc]
        · obtain ⟨u₂, v₂, hB₁⟩ := hB'
          refine ⟨A ++ (sl "(" ++ r ++ sl ") with") ++ u₂, d', v₂, ?_, hld⟩
          rw [← hB₁]
          simp [List.append_assoc]
  · rw [if_neg hsr]
    exact hocc

/-! ## Lowercased edges transfer back to the raw string -/

lemma lower_getLastD {d' : Str} (h : d' ≠ []) (c : Char) :
    (lower d').getLastD c = (d'.getLastD c).toLower := by
  rw [List.getLastD_eq_getLast?, List.getLastD_eq_getLast?]
  show (d'.map Char.toLower).getLast?.getD c = _
  rw [List.getLast?_map]
  cases hgl : d'.getLast? with
  | none =>
    exact absurd (List.getLast?_eq_none_iff.mp hgl) h
  | some x =>
    rfl

/-! ## A raw occurrence of a safe name survives the final trim -/

lemma trim_occ {s d : Str} (hocc : RawOcc s d) (hside : DevSideOK d) : RawOcc (trim s) d := by
  obtain ⟨u, d', v, rfl, hld⟩ := hocc
  obtain ⟨hl4, -, -, -, hhd, hld2⟩ := hside
  have hne : d' ≠ [] := by
    intro h0
    rw [h0] at hld
    have hlen := congrArg List.length hld
    simp only [lower, List.length_map, List.length_nil] at hlen hl4
    omega
  have hh' : wsB (d'.headD ' ') = false := by
    cases d' with
    | nil => exact absurd rfl hne
    | cons c t =>
      have hcl : (lower d).headD ' ' = c.toLower := by rw [← hld]; rfl
      exact ws_of_toLower_ws hcl.symm hhd
  have hl' : wsB (d'.getLastD ' ') = false := by
    have h1 : (lower d).getLastD ' ' = (d'.getLastD ' ').toLower := by
      rw [← hld]
      exact lower_getLastD hne ' '
    exact ws_of_toLower_ws h1.symm hld2
  obtain ⟨u', v', htr⟩ := trim_keep hne hh' hl' rfl
  exact ⟨u', d', v', htr, hld⟩

/-! ## The normalizer core: developer containment and ratio presence of the output -/

lemma core_props {r d : Str} (hsr : isSimpleRatio r = true)
    (hrAt : ∀ y, ratioAt (r ++ y) = true) (hside : DevSideOK d) (g : Str) :
    containsCI (trim (ratioStep r (devStep (some d) g))) d = true ∧
    ratioSearch (trim (ratioStep r (devStep (some d) g))) = true := by
  have hocc1 := devStep_occ d g
  refine ⟨rawOcc_containsCI (trim_occ (ratioStep_occ hocc1 hside) hside), ?_⟩
  by_cases hrs : ratioSearch (devStep (some d) g) = true
  · have hres : ratioStep r (devStep (some d) g) = devStep (some d) g := by
      unfold ratioStep
      rw [if_pos hsr, if_pos hrs]
    rw [hres]
    exact ratioSearch_trim hrs
  · rcases hfw : findWith (devStep (some d) g) with _ | ⟨A, W, B⟩
    · have hres : ratioStep r (devStep (some d) g) =
          devStep (some d) g ++ (sl " (" ++ r ++ sl ")") := by
        unfold ratioStep
        rw [if_pos hsr, if_neg hrs, hfw]
      rw [hres]
      apply ratioSearch_trim
      refine ratioSearch_of_suffix ⟨devStep (some d) g ++ sl " (", ?_⟩ (hrAt (sl ")"))
      simp [List.append_assoc]
    · have hres : ratioStep r (devStep (some d) g) =
          A ++ (sl "(" ++ r ++ sl ") with") ++ B := by
        unfold ratioStep
        rw [if_pos hsr, if_neg hrs, hfw]
      rw [hres]
      apply ratioSearch_trim
      refine ratioSearch_of_suffix ⟨A ++ sl "(", ?_⟩ (hrAt (sl ") with" ++ B))
      simp [List.append_assoc]

/-! ## The registry ratios have the shape region property -/

lemma shape_11 : RatioShape (sl "1:1") :=
  ⟨['1'], [], [], [], ['1'], by decide, by decide, by decide, Or.inl rfl,
    by decide, by decide, by decide, by decide⟩

lemma shape_12 : RatioShape (sl "1:2") :=
  ⟨['1'], [], [], [], ['2'], by decide, by decide, by decide, Or.inl rfl,
    by decide, by decide, by decide, by decide⟩

lemma shape_21 : RatioShape (sl "2:1") :=
  ⟨['2'], [], [], [], ['1'], by decide, by decide, by decide, Or.inl rfl,
    by decide, by decide, by decide, by decide⟩

lemma ratioApp_11 (y : Str) : ratioAt (sl "1:1" ++ y) = true := ratioAt_of_shape shape_11 y

lemma ratioApp_12 (y : Str) : ratioAt (sl "1:2" ++ y) = true := ratioAt_of_shape shape_12 y

lemma ratioApp_21 (y : Str) : ratioAt (sl "2:1" ++ y) = true := ratioAt_of_shape shape_21 y

lemma ratioApp_115 (y : Str) : ratioAt (sl "1:1.5" ++ y) = true := by
  show ratioAt (sl "1:1" ++ ('.' :: '5' :: y)) = true
  exact ratioApp_11 ('.' :: '5' :: y)

/-! ## Per-brand facts of the registry for the non-RTU brands -/

set_option maxHeartbeats 4000000

lemma brand_nonRTU_props {b : Str} {rule : BrandRule} (h : BRAND_RULES b = some rule)
    (hnr : containsCI rule.ratio (sl "rtu") = false) :
    ∃ dv, canonicalDeveloperName b = some dv ∧ DevSideOK dv ∧
      isSimpleRatio (trim rule.ratio) = true ∧
      (∀ y, ratioAt (trim rule.ratio ++ y) = true) := by
  unfold BRAND_RULES at h
  by_cases h1 : b = sl "Redken Color Gels Lacquers"
  · rw [if_pos h1] at h
    subst h1
    have hratio : rule.ratio = sl "1:1" := by rw [← Option.some.inj h]
    refine ⟨sl "Redken Pro‑oxide Cream Developer 10", by decide, by unfold DevSideOK; decide, by rw [hratio]; decide, fun y => ?_⟩
    rw [hratio, show trim (sl "1:1") = sl "1:1" from by decide]
    exact ratioApp_11 y
  · rw [if_neg h1] at h
    by_cases h2 : b = sl "Wella Koleston Perfect"
    · rw [if_pos h2] at h
      subst h2
      have hratio : rule.ratio = sl "1:1" := by rw [← Option.some.inj h]
      refine ⟨sl "Welloxon Perfect", by decide, by unfold DevSideOK; decide, by rw [hratio]; decide, fun y => ?_⟩
      rw [hratio, show trim (sl "1:1") = sl "1:1" from by decide]
      exact ratioApp_11 y
    · rw [if_neg h2] at h
      by_cases h3 : b = sl "Wella Illumina Color"
      · rw [if_pos h3] at h
        subst h3
        have hratio : rule.ratio = sl "1:1" := by rw [← Option.some.inj h]
        refine ⟨sl "Welloxon Perfect", by decide, by unfold DevSideOK; decide, by rw [hratio]; decide, fun y => ?_⟩
        rw [hratio, show trim (sl "1:1") = sl "1:1" from by decide]
        exact ratioApp_11 y
      · rw [if_neg h3] at h
        by_cases h4 : b = sl "L’Oréal Professionnel Majirel"
        · rw [if_pos h4] at h
          subst h4
          have hratio : rule.ratio = sl "1:1.5" := by rw [← Option.some.inj h]
          refine ⟨sl "L’Oréal Oxydant Creme", by decide, by unfold DevSideOK; decide, by rw [hratio]; decide, fun y => ?_⟩
          rw [hratio, show trim (sl "1:1.5") = sl "1:1.5" from by decide]
          exact ratioApp_115 y
        · rw [if_neg h4] at h
          by_cases h5 : b = sl "Matrix SoColor Permanent"
          · rw [if_pos h5] at h
            subst h5
            have hratio : rule.ratio = sl "1:1" := by rw [← Option.some.inj h]
            refine ⟨sl "Matrix Cream Developer 10", by decide, by unfold DevSideOK; decide, by rw [hratio]; decide, fun y => ?_⟩
            rw [hratio, show trim (sl "1:1") = sl "1:1" from by decide]
            exact ratioApp_11 y
          · rw [if_neg h5] at h
            by_cases h6 : b = sl "Goldwell Topchic"
            · rw [if_pos h6] at h
              subst h6
              have hratio : rule.ratio = sl "1:1" := by rw [← Option.some.inj h]
              refine ⟨sl "Goldwell Topchic Developer Lotion", by decide, by unfold DevSideOK; decide, by rw [hratio]; decide, fun y => ?_⟩
              rw [hratio, show trim (sl "1:1") = sl "1:1" from by decide]
              exact ratioApp_11 y
            · rw [if_neg h6] at h
              by_cases h7 : b = sl "Schwarzkopf Igora Royal"
              · rw [if_pos h7] at h
                subst h7
                have hratio : rule.ratio = sl "1:1" := by rw [← Option.some.inj h]
                refine ⟨sl "IGORA Oil Developer", by decide, by unfold DevSideOK; decide, by rw [hratio]; decide, fun y => ?_⟩
                rw [hratio, show trim (sl "1:1") = sl "1:1" from by decide]
                exact ratioApp_11 y
              · rw [if_neg h7] at h
                by_cases h8 : b = sl "Pravana ChromaSilk Permanent Crème Color"
                · rw [if_pos h8] at h
                  subst h8
                  have hratio : rule.ratio = sl "1:1.5" := by rw [← Option.some.inj h]
                  refine ⟨sl "PRAVANA Crème Developer 10", by decide, by unfold DevSideOK; decide, by rw [hratio]; decide, fun y => ?_⟩
                  rw [hratio, show trim (sl "1:1.5") = sl "1:1.5" from by decide]
                  exact ratioApp_115 y
                · rw [if_neg h8] at h
                  by_cases h9 : b = sl "Redken Shades EQ"
                  · rw [if_pos h9] at h
                    subst h9
                    have hratio : rule.ratio = sl "1:1" := by rw [← Option.some.inj h]
                    refine ⟨sl "Shades EQ Processing Solution", by decide, by unfold DevSideOK; decide, by rw [hratio]; decide, fun y => ?_⟩
                    rw [hratio, show trim (sl "1:1") = sl "1:1" from by decide]
                    exact ratioApp_11 y
                  · rw [if_neg h9] at h
                    by_cases h10 : b = sl "Wella Color Touch"
                    · rw [if_pos h10] at h
                      subst h10
                      have hratio : rule.ratio = sl "1:2" := by rw [← Option.some.inj h]
                      refine ⟨sl "Color Touch Emulsion 1.", by decide, by unfold DevSideOK; decide, by rw [hratio]; decide, fun y => ?_⟩
                      rw [hratio, show trim (sl "1:2") = sl "1:2" from by decide]
                      exact ratioApp_12 y
                    · rw [if_neg h10] at h
                      by_cases h11 : b = sl "Paul Mitchell The Demi"
                      · rw [if_pos h11] at h
                        subst h11
                        have hratio : rule.ratio = sl "1:1" := by rw [← Option.some.inj h]
                        refine ⟨sl "The Demi Processing Liquid", by decide, by unfold DevSideOK; decide, by rw [hratio]; decide, fun y => ?_⟩
                        rw [hratio, show trim (sl "1:1") = sl "1:1" from by decide]
                        exact ratioApp_11 y
                      · rw [if_neg h11] at h
                        by_cases h12 : b = sl "Matrix SoColor Sync"
                        · rw [if_pos h12] at h
                          subst h12
                          have hratio : rule.ratio = sl "1:1" := by rw [← Option.some.inj h]
                          refine ⟨sl "SoColor Sync Activator", by decide, by unfold DevSideOK; decide, by rw [hratio]; decide, fun y => ?_⟩
                          rw [hratio, show trim (sl "1:1") = sl "1:1" from by decide]
                          exact ratioApp_11 y
                        · rw [if_neg h12] at h
                          by_cases h13 : b = sl "Goldwell Colorance"
                          · rw [if_pos h13] at h
                            subst h13
                            have hratio : rule.ratio = sl "2:1" := by rw [← Option.some.inj h]
                            refine ⟨sl "Colorance System Developer Lotion", by decide, by unfold DevSideOK; decide, by rw [hratio]; decide, fun y => ?_⟩
                            rw [hratio, show trim (sl "2:1") = sl "2:1" from by decide]
                            exact ratioApp_21 y
                          · rw [if_neg h13] at h
                            by_cases h14 : b = sl "Schwarzkopf Igora Vibrance"
                            · rw [if_pos h14] at h
                              subst h14
                              have hratio : rule.ratio = sl "1:1" := by rw [← Option.some.inj h]
                              refine ⟨sl "IGORA VIBRANCE Activator Gel", by decide, by unfold DevSideOK; decide, by rw [hratio]; decide, fun y => ?_⟩
                              rw [hratio, show trim (sl "1:1") = sl "1:1" from by decide]
                              exact ratioApp_11 y
                            · rw [if_neg h14] at h
                              by_cases h15 : b = sl "Pravana ChromaSilk Express Tones"
                              · rw [if_pos h15] at h
                                subst h15
                                have hratio : rule.ratio = sl "1:1.5" := by rw [← Option.some.inj h]
                                refine ⟨sl "PRAVANA Zero Lift Creme Developer", by decide, by unfold DevSideOK; decide, by rw [hratio]; decide, fun y => ?_⟩
                                rw [hratio, show trim (sl "1:1.5") = sl "1:1.5" from by decide]
                                exact ratioApp_115 y
                              · rw [if_neg h15] at h
                                by_cases h16 : b = sl "Wella Color Fresh"
                                · rw [if_pos h16] at h
                                  exfalso
                                  have hratio : rule.ratio = sl "RTU" := by rw [← Option.some.inj h]
                                  rw [hratio] at hnr
                                  exact absurd hnr (by decide)
                                · rw [if_neg h16] at h
                                  by_cases h17 : b = sl "Goldwell Elumen"
                                  · rw [if_pos h17] at h
                                    exfalso
                                    have hratio : rule.ratio = sl "RTU" := by rw [← Option.some.inj h]
                                    rw [hratio] at hnr
                                    exact absurd hnr (by decide)
                                  · rw [if_neg h17] at h
                                    by_cases h18 : b = sl "Pravana ChromaSilk Vivids"
                                    · rw [if_pos h18] at h
                                      exfalso
                                      have hratio : rule.ratio = sl "RTU" := by rw [← Option.some.inj h]
                                      rw [hratio] at hnr
                                      exact absurd hnr (by decide)
                                    · rw [if_neg h18] at h
                                      by_cases h19 : b = sl "Schwarzkopf Chroma ID"
                                      · rw [if_pos h19] at h
                                        exfalso
                                        have hratio : rule.ratio = sl "RTU" := by rw [← Option.some.inj h]
                                        rw [hratio] at hnr
                                        exact absurd hnr (by decide)
                                      · rw [if_neg h19] at h
                                        by_cases h20 : b = sl "Matrix SoColor Cult"
                                        · rw [if_pos h20] at h
                                          exfalso
                                          have hratio : rule.ratio = sl "RTU" := by rw [← Option.some.inj h]
                                          rw [hratio] at hnr
                                          exact absurd hnr (by decide)
                                        · rw [if_neg h20] at h
                                          exact Option.noConfusion h

/-! ## Unfolding the normalizer for a registered non-RTU brand -/

lemma enforce_eq_core {f b : Str} {rule : BrandRule} (hf : f.isEmpty = false)
    (hbr : BRAND_RULES b = some rule) (hnr : containsCI rule.ratio (sl "rtu") = false) :
    enforceRatioAndDeveloper f b =
      trim (ratioStep (trim rule.ratio) (devStep (canonicalDeveloperName b) (trim f))) := by
  unfold enforceRatioAndDeveloper
  rw [if_neg (by rw [hf]; exact Bool.false_ne_true), hbr]
  show (if containsCI rule.ratio (sl "rtu") = true then trim f
    else trim (ratioStep (trim rule.ratio) (devStep (canonicalDeveloperName b) (trim f)))) = _
  rw [if_neg (by rw [hnr]; exact Bool.false_ne_true)]

/-- C4 (corrected): the claim as worded fails (see the counterexample: a
foreign ratio such as "2:1" already present satisfies the generic ratio
search, so the brand's own canonical ratio substring need not appear).
The amended property that does hold of `enforceRatioAndDeveloper`: for
every registered non-RTU brand and every non-empty formula, the output
contains the brand's canonical developer display-name case-insensitively,
and contains some "n:m" ratio token — not necessarily the registered
one. -/
theorem c4_normalizer_injects (b : Str) (rule : BrandRule) (f : Str)
    (hr : BRAND_RULES b = some rule) (hnr : containsCI rule.ratio (sl "rtu") = false)
    (hf : f.isEmpty = false) :
    (∀ d, canonicalDeveloperName b = some d →
      containsCI (enforceRatioAndDeveloper f b) d = true) ∧
    ratioSearch (enforceRatioAndDeveloper f b) = true := by
  obtain ⟨dv, hdev, hside, hsr, hrAt⟩ := brand_nonRTU_props hr hnr
  obtain ⟨hcon, hrs⟩ := core_props hsr hrAt hside (trim f)
  rw [enforce_eq_core hf hr hnr, hdev]
  refine ⟨fun d hd => ?_, hrs⟩
  obtain rfl := Option.some.inj hd
  exact hcon

/-- Witness for C4: for Redken Shades EQ and the bare formula "07NB", the
normalizer's output contains the canonical developer name and a ratio
token. -/
theorem c4_normalizer_injects_witness :
    containsCI (enforceRatioAndDeveloper (sl "07NB") (sl "Redken Shades EQ"))
      (sl "Shades EQ Processing Solution") = true ∧
    ratioSearch (enforceRatioAndDeveloper (sl "07NB") (sl "Redken Shades EQ")) = true :=
  ⟨(c4_normalizer_injects (sl "Redken Shades EQ")
      ⟨sl "demi", sl "1:1", sl "Shades EQ Processing Solution"⟩ (sl "07NB")
      (by decide) (by decide) (by decide)).1 (sl "Shades EQ Processing Solution") (by decide),
    (c4_normalizer_injects (sl "Redken Shades EQ")
      ⟨sl "demi", sl "1:1", sl "Shades EQ Processing Solution"⟩ (sl "07NB")
      (by decide) (by decide) (by decide)).2⟩

/-- C5 (confirmed): the formula normalizer is idempotent — for every
formula string and every brand, applying `enforceRatioAndDeveloper` to its
own output returns that output unchanged. -/
theorem c5_normalizer_idempotent (f b : Str) :
    enforceRatioAndDeveloper (enforceRatioAndDeveloper f b) b =
      enforceRatioAndDeveloper f b := by
  by_cases hf : f.isEmpty = true
  · have h0 : enforceRatioAndDeveloper f b = f := by
      unfold enforceRatioAndDeveloper
      rw [if_pos hf]
    rw [h0, h0]
  · cases hbr : BRAND_RULES b with
    | none =>
      have h0 : ∀ x : Str, enforceRatioAndDeveloper x b = x := by
        intro x
        unfold enforceRatioAndDeveloper
        by_cases hx : x.isEmpty = true
        · rw [if_pos hx]
        · rw [if_neg hx, hbr]
      rw [h0, h0]
    | some rule =>
      by_cases hrtu : containsCI rule.ratio (sl "rtu") = true
      · have h0 : enforceRatioAndDeveloper f b = trim f := by
          unfold enforceRatioAndDeveloper
          rw [if_neg hf, hbr]
          show (if containsCI rule.ratio (sl "rtu") = true then trim f else _) = trim f
          rw [if_pos hrtu]
        rw [h0]
        by_cases h2 : (trim f).isEmpty = true
        · unfold enforceRatioAndDeveloper
          rw [if_pos h2]
        · unfold enforceRatioAndDeveloper
          rw [if_neg h2, hbr]
          show (if containsCI rule.ratio (sl "rtu") = true then trim (trim f) else _) = trim f
          rw [if_pos hrtu, trim_trim]
      · have hnr : containsCI rule.ratio (sl "rtu") = false := by
          revert hrtu
          cases containsCI rule.ratio (sl "rtu") <;> simp
        have hfne : f.isEmpty = false := by
          revert hf
          cases f.isEmpty <;> simp
        obtain ⟨dv, hdev, hside, hsr, hrAt⟩ := brand_nonRTU_props hbr hnr
        obtain ⟨hcon, hrs⟩ := core_props hsr hrAt hside (trim f)
        have h0 : enforceRatioAndDeveloper f b =
            trim (ratioStep (trim rule.ratio) (devStep (some dv) (trim f))) := by
          rw [enforce_eq_core hfne hbr hnr, hdev]
        rw [h0]
        have hg₁ne : (trim (ratioStep (trim rule.ratio) (devStep (some dv) (trim f)))).isEmpty
            = false := by
          cases hempty : (trim (ratioStep (trim rule.ratio)
              (devStep (some dv) (trim f)))).isEmpty
          · rfl
          · exfalso
            have hnil : trim (ratioStep (trim rule.ratio) (devStep (some dv) (trim f)))
                = [] := by
              revert hempty
              cases trim (ratioStep (trim rule.ratio) (devStep (some dv) (trim f))) <;> simp
            rw [hnil] at hrs
            exact absurd hrs (by decide)
        rw [enforce_eq_core hg₁ne hbr hnr, hdev]
        have htr : trim (trim (ratioStep (trim rule.ratio) (devStep (some dv) (trim f))))
            = trim (ratioStep (trim rule.ratio) (devStep (some dv) (trim f))) := trim_trim _
        rw [htr]
        have hdstep : devStep (some dv)
            (trim (ratioStep (trim rule.ratio) (devStep (some dv) (trim f))))
            = trim (ratioStep (trim rule.ratio) (devStep (some dv) (trim f))) := by
          show (if containsCI (trim (ratioStep (trim rule.ratio)
              (devStep (some dv) (trim f)))) dv = true then _ else _) = _
          rw [if_pos hcon]
        rw [hdstep]
        have hrstep : ratioStep (trim rule.ratio)
            (trim (ratioStep (trim rule.ratio) (devStep (some dv) (trim f))))
            = trim (ratioStep (trim rule.ratio) (devStep (some dv) (trim f))) := by
          show (if isSimpleRatio (trim rule.ratio) = true then
              if ratioSearch (trim (ratioStep (trim rule.ratio)
                  (devStep (some dv) (trim f)))) = true
              then trim (ratioStep (trim rule.ratio) (devStep (some dv) (trim f)))
              else match findWith (trim (ratioStep (trim rule.ratio)
                  (devStep (some dv) (trim f)))) with
                | some (a, _, b) => a ++ (sl "(" ++ trim rule.ratio ++ sl ") with") ++ b
                | none => trim (ratioStep (trim rule.ratio) (devStep (some dv) (trim f))) ++
                    (sl " (" ++ trim rule.ratio ++ sl ")")
            else trim (ratioStep (trim rule.ratio) (devStep (some dv) (trim f)))) =
            trim (ratioStep (trim rule.ratio) (devStep (some dv) (trim f)))
          rw [if_pos hsr, if_pos hrs]
        rw [hrstep, htr]

end FormulaGuru
